import Mathlib

/-! vkFramework: the profiler's running-average tracker, its configuration
constants, the timestamp ring, the zone registry with the frame session, and
the compute buffer.

Shallow embedding of

* `src/include/Gaia/Gui/VulkanProfiler.h` (`vkProfAverageValue<uint64_t>`, the
  profiler constants and side tables),
* `src/src/Buffer/ComputeBuffer.cpp` (`ComputeBuffer`).

The profiler methods that the header only declares (query-id allocation, zone
resolution, zone entry and exit) are modelled from the specification; each
such definition says so.

Machine integers are natural numbers with explicit reduction modulo `2 ^ 64`
(`uint64_t`) where the source arithmetic can wrap.
-/

namespace GaiApi

/-! ## Constants of `VulkanProfiler.h` -/

/-- The macro `vkProf_RECURSIVE_LEVELS_COUNT` (`20U`). -/
def vkProf_RECURSIVE_LEVELS_COUNT : Nat := 20

/-- The macro `vkProf_MEAN_AVERAGE_LEVELS_COUNT` (`60U`). -/
def vkProf_MEAN_AVERAGE_LEVELS_COUNT : Nat := 60

/-- Number of values of the type `uint64_t`. -/
def U64 : Nat := 2 ^ 64

/-! ## `vkProfAverageValue<uint64_t>` -/

/-- The private members of `vkProfAverageValue<T>` for `T = uint64_t`.
`m_PerFrame` is the C array of `sCountAverageValues` slots, `m_PerFrameIdx` the
`int` cursor (it never leaves `0 .. sCountAverageValues - 1`, so it is kept as a
natural number). -/
structure vkProfAverageValue where
  m_PerFrame : List Nat
  m_PerFrameIdx : Nat
  m_PerFrameAccum : Nat
  m_AverageValue : Nat
deriving DecidableEq, Repr

/-- The member `static constexpr uint32_t sCountAverageValues`. -/
def vkProfAverageValue.sCountAverageValues : Nat := vkProf_MEAN_AVERAGE_LEVELS_COUNT

/-- The constructor `vkProfAverageValue<T>::vkProfAverageValue()`: the slots are
zeroed with `memset`, cursor, accumulator and average are set to `0`. -/
def vkProfAverageValue.ctor : vkProfAverageValue :=
  { m_PerFrame := List.replicate vkProfAverageValue.sCountAverageValues 0
    m_PerFrameIdx := 0
    m_PerFrameAccum := 0
    m_AverageValue := 0 }

/-- The read `m_PerFrame[m_PerFrameIdx]`. -/
def vkProfAverageValue.slotAtCursor (s : vkProfAverageValue) : Nat :=
  s.m_PerFrame.getD s.m_PerFrameIdx 0

/-- The first statement of `AddValue`: when `vValue < m_PerFrame[m_PerFrameIdx]`
every member is cleared, otherwise the state is left as it is. -/
def vkProfAverageValue.resetIfSmaller (s : vkProfAverageValue) (vValue : Nat) :
    vkProfAverageValue :=
  if vValue < s.slotAtCursor then
    { m_PerFrame := List.replicate vkProfAverageValue.sCountAverageValues 0
      m_PerFrameIdx := 0
      m_PerFrameAccum := 0
      m_AverageValue := 0 }
  else s

/-- The method `vkProfAverageValue<T>::AddValue(T vValue)` for `T = uint64_t`.
The subtraction and the `+=` wrap modulo `2 ^ 64`; the cursor is converted to
`uint64_t`, incremented and reduced modulo `sCountAverageValues`. -/
def vkProfAverageValue.AddValue (s : vkProfAverageValue) (vValue : Nat) :
    vkProfAverageValue :=
  let s1 := s.resetIfSmaller vValue
  let accum := (s1.m_PerFrameAccum + (vValue + U64 - s1.slotAtCursor) % U64) % U64
  { m_PerFrame := s1.m_PerFrame.set s1.m_PerFrameIdx vValue
    m_PerFrameIdx := (s1.m_PerFrameIdx + 1) % U64 % vkProfAverageValue.sCountAverageValues
    m_PerFrameAccum := accum
    m_AverageValue :=
      if accum > 0 then accum / vkProfAverageValue.sCountAverageValues
      else s1.m_AverageValue }

/-- The method `vkProfAverageValue<T>::GetAverage()`. -/
def vkProfAverageValue.GetAverage (s : vkProfAverageValue) : Nat :=
  s.m_AverageValue

/-- Feeding a list of values, first to last, with `AddValue`. -/
def vkProfAverageValue.feed (s : vkProfAverageValue) (vs : List Nat) : vkProfAverageValue :=
  vs.foldl vkProfAverageValue.AddValue s

/-- Number of `AddValue` calls that take the clearing branch
(`vValue < m_PerFrame[m_PerFrameIdx]`) while the list is fed, first to last. -/
def vkProfAverageValue.feedResets (s : vkProfAverageValue) : List Nat → Nat
  | [] => 0
  | v :: vs => (if v < s.slotAtCursor then 1 else 0) + feedResets (s.AddValue v) vs

/-- The last `sCountAverageValues` elements of a list of fed values (the whole
list when it is shorter). -/
def vkProfAverageValue.lastWindow (vs : List Nat) : List Nat :=
  vs.drop (vs.length - vkProfAverageValue.sCountAverageValues)

/-- A well-formed object: the array has `sCountAverageValues` slots, the cursor
indexes inside it and every `uint64_t` member is below `2 ^ 64`. -/
def vkProfAverageValue.WF (s : vkProfAverageValue) : Prop :=
  s.m_PerFrame.length = vkProfAverageValue.sCountAverageValues ∧
  s.m_PerFrameIdx < vkProfAverageValue.sCountAverageValues ∧
  (∀ x ∈ s.m_PerFrame, x < U64) ∧
  s.m_PerFrameAccum < U64 ∧
  s.m_AverageValue < U64

instance vkProfAverageValue.decidableWF (s : vkProfAverageValue) : Decidable s.WF := by
  unfold vkProfAverageValue.WF; infer_instance

/-! ## `vkProfiler`: capacities and side tables -/

/-- The member `static constexpr uint32_t sMaxQueryCount = 1024U` of `vkProfiler`. -/
def vkProfiler.sMaxQueryCount : Nat := 1024

/-- The member `static constexpr uint32_t sMaxDepth = 64U` of `vkProfiler`. -/
def vkProfiler.sMaxDepth : Nat := 64

/-- The three `std::array` side tables of `vkProfiler`; a zone pointer is an
optional zone handle, `none` being `nullptr`. -/
structure vkProfilerTables where
  m_QueryIDToZone : List (Option Nat)
  m_DepthToLastZone : List (Option Nat)
  m_TimeStampMeasures : List Nat
deriving DecidableEq, Repr

/-- The member initialisers `= {}` of
`std::array<vkProfQueryZonePtr, sMaxQueryCount> m_QueryIDToZone`,
`std::array<vkProfQueryZonePtr, sMaxDepth> m_DepthToLastZone` and
`std::array<vkTimeStamp, sMaxQueryCount> m_TimeStampMeasures`. -/
def vkProfilerTables.init : vkProfilerTables :=
  { m_QueryIDToZone := List.replicate vkProfiler.sMaxQueryCount none
    m_DepthToLastZone := List.replicate vkProfiler.sMaxDepth none
    m_TimeStampMeasures := List.replicate vkProfiler.sMaxQueryCount 0 }

/-- The member `std::array<vkProfQueryZoneWeak, vkProf_RECURSIVE_LEVELS_COUNT>
m_BreadCrumbTrail` of `vkProfQueryZone`, default constructed. -/
def vkProfQueryZone.m_BreadCrumbTrail_init : List (Option Nat) :=
  List.replicate vkProf_RECURSIVE_LEVELS_COUNT none

/-! ## The timestamp ring -/

/-- The errors of the specification's taxonomy. -/
inductive ProfilerError where
  | InvalidStateError
  | UnbalancedZoneError
  | DepthExceededError
  | QueryCapacityExceededError
deriving DecidableEq, Repr

/-- Modelled from the spec: the state of the TimestampRing. The header declares
`m_QueryHead` and `m_MaxQueryCount` and the method `m_GetNextQueryId`, whose
body is not part of the sources; the specification gives a fixed `capacity` of
raw timestamp slots and `head`, the next free slot index. -/
structure TimestampRing where
  capacity : Nat
  head : Nat
deriving DecidableEq, Repr

/-- Modelled from the spec: `allocate() -> (queryIdStart, queryIdEnd)`, missing
from the sources (only `m_GetNextQueryId` is declared). It fails with
`QueryCapacityExceededError` when `head + 2 > capacity`; otherwise two slots are
consumed (start id, end id), taken at the next free slot index `head`. -/
def TimestampRing.allocate (r : TimestampRing) :
    Except ProfilerError ((Nat × Nat) × TimestampRing) :=
  if r.head + 2 > r.capacity then
    Except.error ProfilerError.QueryCapacityExceededError
  else
    Except.ok ((r.head, r.head + 1), { r with head := r.head + 2 })

/-- Modelled from the spec: `resetFrame()` sets `head = 0`. -/
def TimestampRing.resetFrame (r : TimestampRing) : TimestampRing :=
  { r with head := 0 }

/-- Consecutive calls of `allocate` within one frame: the ids reserved by the
first `n` calls and the ring after them, or the error of the first call that
fails. -/
def TimestampRing.allocateMany (r : TimestampRing) :
    Nat → Except ProfilerError (List (Nat × Nat) × TimestampRing)
  | 0 => Except.ok ([], r)
  | n + 1 =>
    match r.allocate with
    | Except.error e => Except.error e
    | Except.ok (ids, r1) =>
      match TimestampRing.allocateMany r1 n with
      | Except.error e => Except.error e
      | Except.ok (l, r2) => Except.ok (ids :: l, r2)

/-! ## The zone tree, the registry and the frame session -/

/-- Modelled from the spec: a ZoneNode (section 3). The bodies of
`vkProfiler::GetQueryZoneForName`, `m_BeginZone` and `m_SetQueryZoneForDepth` and
of the `vkProfQueryZone` methods are not part of the sources. A node is owned by
the registry's ordered storage and referred to by its index there (design
notes); `parent` and `root` are the back-references, `childrenByKey` maps a
`(callSiteKey, name)` identity to a child. The average trackers and
`lastElapsed` play no part in zone resolution and are left out. -/
structure ZoneNode where
  callSiteKey : Nat
  name : String
  depth : Nat
  parent : Option Nat
  root : Nat
  childrenOrdered : List Nat
  childrenByKey : List ((Nat × String) × Nat)
  calledCountThisFrame : Nat
  lastTouchedFrameId : Nat
  pendingQueryIds : Nat × Nat
deriving DecidableEq, Repr

/-- Modelled from the spec: the ZoneRegistry, missing from the sources: the
storage of all nodes plus the ordered list and the keyed map of the root
zones (the nodes created without a parent). -/
structure ZoneRegistry where
  nodes : List ZoneNode
  rootsOrdered : List Nat
  rootsByKey : List ((Nat × String) × Nat)
deriving DecidableEq, Repr

/-- The registry without any zone. -/
def ZoneRegistry.empty : ZoneRegistry :=
  { nodes := [], rootsOrdered := [], rootsByKey := [] }

/-- The node behind an optional weak parent reference: absent when there is no
reference or when the handle refers to no stored node. -/
def ZoneRegistry.lock (reg : ZoneRegistry) (parentNode : Option Nat) : Option (Nat × ZoneNode) :=
  match parentNode with
  | none => none
  | some p =>
    match reg.nodes[p]? with
    | none => none
    | some pn => some (p, pn)

/-- The keyed children of a parent, the keyed roots when the parent is absent. -/
def ZoneRegistry.childrenByKeyOf (reg : ZoneRegistry) (parentNode : Option Nat) :
    List ((Nat × String) × Nat) :=
  match reg.lock parentNode with
  | none => reg.rootsByKey
  | some (_, pn) => pn.childrenByKey

/-- The ordered children of a parent, the ordered roots when the parent is absent. -/
def ZoneRegistry.childrenOrderedOf (reg : ZoneRegistry) (parentNode : Option Nat) : List Nat :=
  match reg.lock parentNode with
  | none => reg.rootsOrdered
  | some (_, pn) => pn.childrenOrdered

/-- Modelled from the spec: the counting of an entry, missing from the sources.
`calledCountThisFrame` is incremented; a zone whose `lastTouchedFrameId` differs
from the frame id is fresh for the frame, its count restarts (section 4.2,
`beginFrame`). -/
def ZoneNode.touch (frameId : Nat) (n : ZoneNode) : ZoneNode :=
  if n.lastTouchedFrameId = frameId then
    { n with calledCountThisFrame := n.calledCountThisFrame + 1 }
  else
    { n with calledCountThisFrame := 1, lastTouchedFrameId := frameId }

/-- Modelled from the spec: `resolve(callSiteKey, name, parentNode?) -> ZoneNode`
(section 4.1), missing from the sources (`GetQueryZoneForName` is only declared).
If the parent already has a child with that identity it is returned, its call
count incremented. Otherwise a node is created as a child of the parent (or as
a root when the parent is absent) with `depth = parent.depth + 1` (0 for a
root) and the root back-reference of its parent (itself for a root), appended
to `childrenOrdered` and inserted into `childrenByKey`. -/
def ZoneRegistry.resolve (reg : ZoneRegistry) (frameId callSiteKey : Nat) (name : String)
    (parentNode : Option Nat) : Nat × ZoneRegistry :=
  match (reg.childrenByKeyOf parentNode).lookup (callSiteKey, name) with
  | some h =>
    match reg.nodes[h]? with
    | some n => (h, { reg with nodes := reg.nodes.set h (n.touch frameId) })
    | none => (h, reg)
  | none =>
    match reg.lock parentNode with
    | none =>
      (reg.nodes.length,
        { nodes := reg.nodes ++
            [{ callSiteKey := callSiteKey, name := name, depth := 0, parent := none,
               root := reg.nodes.length, childrenOrdered := [], childrenByKey := [],
               calledCountThisFrame := 1, lastTouchedFrameId := frameId,
               pendingQueryIds := (0, 0) }]
          rootsOrdered := reg.rootsOrdered ++ [reg.nodes.length]
          rootsByKey := ((callSiteKey, name), reg.nodes.length) :: reg.rootsByKey })
    | some (p, pn) =>
      (reg.nodes.length,
        { reg with
          nodes := reg.nodes.set p
              { pn with
                childrenOrdered := pn.childrenOrdered ++ [reg.nodes.length]
                childrenByKey := ((callSiteKey, name), reg.nodes.length) :: pn.childrenByKey } ++
            [{ callSiteKey := callSiteKey, name := name, depth := pn.depth + 1,
               parent := some p, root := pn.root, childrenOrdered := [], childrenByKey := [],
               calledCountThisFrame := 1, lastTouchedFrameId := frameId,
               pendingQueryIds := (0, 0) }] })

/-- Resolving the same identity under the same parent once in each of a sequence
of frames, given by their frame ids: the nodes returned and the registry
afterwards. -/
def ZoneRegistry.resolveEachFrame (reg : ZoneRegistry) (callSiteKey : Nat) (name : String)
    (parentNode : Option Nat) : List Nat → List Nat × ZoneRegistry
  | [] => ([], reg)
  | f :: fs =>
    ((reg.resolve f callSiteKey name parentNode).1 ::
        (ZoneRegistry.resolveEachFrame (reg.resolve f callSiteKey name parentNode).2
          callSiteKey name parentNode fs).1,
      (ZoneRegistry.resolveEachFrame (reg.resolve f callSiteKey name parentNode).2
        callSiteKey name parentNode fs).2)

/-- The ancestor reached from node `h` by following `k` parent references. -/
def ZoneRegistry.ancestorAt (reg : ZoneRegistry) : Nat → Nat → Option Nat
  | 0, h => some h
  | k + 1, h =>
    match reg.nodes[h]? with
    | none => none
    | some n =>
      match n.parent with
      | none => none
      | some p => ZoneRegistry.ancestorAt reg k p

/-- Modelled from the spec: the FrameSession (sections 3 and 4.2), missing from
the sources: the stack of the currently open zones (top first), the depth
counters, the frame label and id, together with the registry and the
timestamp ring it drives. The recording of timestamp commands is left out. -/
structure FrameSession where
  registry : ZoneRegistry
  ring : TimestampRing
  stack : List Nat
  currentDepth : Nat
  maxDepthEverSeen : Nat
  frameOpen : Bool
  frameLabel : String
  frameId : Nat
deriving DecidableEq, Repr

/-- A session before its first frame, with a ring of the given capacity. -/
def FrameSession.init (capacity : Nat) : FrameSession :=
  { registry := ZoneRegistry.empty
    ring := { capacity := capacity, head := 0 }
    stack := []
    currentDepth := 0
    maxDepthEverSeen := 0
    frameOpen := false
    frameLabel := ""
    frameId := 0 }

/-- Modelled from the spec: `beginFrame(label)`: `InvalidStateError` when a frame
is open; otherwise the stack and the depth are reset, the ring head restarts
at 0 and the frame id advances. -/
def FrameSession.beginFrame (σ : FrameSession) (label : String) :
    FrameSession × Except ProfilerError Unit :=
  if σ.frameOpen then (σ, Except.error ProfilerError.InvalidStateError)
  else
    ({ σ with stack := [], currentDepth := 0, frameOpen := true, frameLabel := label,
              frameId := σ.frameId + 1, ring := σ.ring.resetFrame }, Except.ok ())

/-- The registry in which node `h` records the two reserved query ids. -/
def ZoneRegistry.setPending (reg : ZoneRegistry) (h : Nat) (ids : Nat × Nat) : ZoneRegistry :=
  match reg.nodes[h]? with
  | none => reg
  | some n => { reg with nodes := reg.nodes.set h { n with pendingQueryIds := ids } }

/-- Modelled from the spec: `enterZone(callSiteKey, name)`: `DepthExceededError`
when `currentDepth >= sMaxDepth`; the zone is resolved with the top of the
stack as parent (none when the stack is empty); two query ids are reserved,
and when the ring is full the zone is skipped with
`QueryCapacityExceededError`; otherwise the node is pushed on the stack. -/
def FrameSession.enterZone (σ : FrameSession) (callSiteKey : Nat) (name : String) :
    FrameSession × Except ProfilerError Nat :=
  if σ.currentDepth ≥ vkProfiler.sMaxDepth then
    (σ, Except.error ProfilerError.DepthExceededError)
  else
    match σ.ring.allocate with
    | Except.error e =>
      ({ σ with registry := (σ.registry.resolve σ.frameId callSiteKey name σ.stack.head?).2 },
        Except.error e)
    | Except.ok (ids, ring1) =>
      ({ σ with
          registry := ((σ.registry.resolve σ.frameId callSiteKey name σ.stack.head?).2).setPending
            (σ.registry.resolve σ.frameId callSiteKey name σ.stack.head?).1 ids
          ring := ring1
          stack := (σ.registry.resolve σ.frameId callSiteKey name σ.stack.head?).1 :: σ.stack
          currentDepth := σ.currentDepth + 1
          maxDepthEverSeen := max σ.maxDepthEverSeen (σ.currentDepth + 1) },
        Except.ok (σ.registry.resolve σ.frameId callSiteKey name σ.stack.head?).1)

/-- Modelled from the spec: `exitZone()`: `UnbalancedZoneError` when the stack is
empty; otherwise the top node is popped and `currentDepth` decremented. -/
def FrameSession.exitZone (σ : FrameSession) : FrameSession × Except ProfilerError Unit :=
  match σ.stack with
  | [] => (σ, Except.error ProfilerError.UnbalancedZoneError)
  | _ :: rest => ({ σ with stack := rest, currentDepth := σ.currentDepth - 1 }, Except.ok ())

/-- Modelled from the spec: `endFrame()`: with a non-empty stack the remaining
zones are force-closed and `UnbalancedZoneError` is reported; the frame is
closed. -/
def FrameSession.endFrame (σ : FrameSession) : FrameSession × Except ProfilerError Unit :=
  match σ.stack with
  | [] => ({ σ with frameOpen := false }, Except.ok ())
  | _ :: _ =>
    ({ σ with stack := [], currentDepth := 0, frameOpen := false },
      Except.error ProfilerError.UnbalancedZoneError)

/-- A call of one of the session operations. -/
inductive FrameOp where
  | beginFrame (label : String)
  | enterZone (callSiteKey : Nat) (name : String)
  | exitZone
  | endFrame
deriving DecidableEq, Repr

/-- The session after one call (an error leaves the session usable). -/
def FrameSession.step (σ : FrameSession) : FrameOp → FrameSession
  | FrameOp.beginFrame label => (σ.beginFrame label).1
  | FrameOp.enterZone callSiteKey name => (σ.enterZone callSiteKey name).1
  | FrameOp.exitZone => σ.exitZone.1
  | FrameOp.endFrame => σ.endFrame.1

/-- The session after a sequence of calls, first to last. -/
def FrameSession.run (σ : FrameSession) (ops : List FrameOp) : FrameSession :=
  ops.foldl FrameSession.step σ

/-- The depth, parent and root recorded by node `h`, when it exists. -/
def ZoneRegistry.linksOf (reg : ZoneRegistry) (h : Nat) : Option (Nat × Option Nat × Nat) :=
  (reg.nodes[h]?).map (fun n => (n.depth, n.parent, n.root))

/-- The keyed children of node `h`, when it exists. -/
def ZoneRegistry.kidsOf (reg : ZoneRegistry) (h : Nat) : Option (List ((Nat × String) × Nat)) :=
  (reg.nodes[h]?).map (fun n => n.childrenByKey)

/-- Consistency of the back-references of a registry: a node without parent has
depth 0 and is its own root, a node with a parent has the parent's depth plus
one and the parent's root; every keyed child records the node it is keyed
under as parent, every keyed root records no parent. -/
def ZoneRegistry.Inv (reg : ZoneRegistry) : Prop :=
  (∀ h d r, reg.linksOf h = some (d, none, r) → d = 0 ∧ r = h) ∧
  (∀ h d p r, reg.linksOf h = some (d, some p, r) →
    ∃ dp pp, reg.linksOf p = some (dp, pp, r) ∧ d = dp + 1) ∧
  (∀ p kids, reg.kidsOf p = some kids → ∀ kc ∈ kids,
    ∃ d r, reg.linksOf kc.2 = some (d, some p, r)) ∧
  (∀ kc ∈ reg.rootsByKey, ∃ d r, reg.linksOf kc.2 = some (d, none, r))

/-- The stack is a chain of parent references ending in a root. -/
def ZoneRegistry.chainOK (reg : ZoneRegistry) : List Nat → Prop
  | [] => True
  | [b] => ∃ d r, reg.linksOf b = some (d, none, r)
  | a :: b :: rest =>
    (∃ d r, reg.linksOf a = some (d, some b, r)) ∧ ZoneRegistry.chainOK reg (b :: rest)

/-- No identity is registered twice: for every parent reference (the roots for an
absent one) the ordered child list is as long as the keyed child map, and the
keys of that map are pairwise distinct. -/
def ZoneRegistry.NoDuplicates (reg : ZoneRegistry) : Prop :=
  ∀ q : Option Nat,
    (reg.childrenOrderedOf q).length = (reg.childrenByKeyOf q).length ∧
    ((reg.childrenByKeyOf q).map Prod.fst).Nodup

/-- How a registry relates to a later one: the storage did not shrink, every
registration under an absent or stored parent is still there, the ordered
child lists are the same when no node was created, and no identity got
registered twice. -/
def ZoneRegistry.Extends (reg reg1 : ZoneRegistry) : Prop :=
  reg.nodes.length ≤ reg1.nodes.length ∧
  (∀ (q : Option Nat) (k : Nat × String) (h : Nat),
    (∀ p, q = some p → p < reg.nodes.length) →
    (reg.childrenByKeyOf q).lookup k = some h →
    (reg1.childrenByKeyOf q).lookup k = some h) ∧
  (reg1.nodes.length = reg.nodes.length →
    ∀ q, reg1.childrenOrderedOf q = reg.childrenOrderedOf q) ∧
  (reg.NoDuplicates → reg1.NoDuplicates)

/-- The session of capacity 1024 in its first frame, the root zone "pass" open. -/
def FrameSession.passOpen : FrameSession :=
  (FrameSession.init 1024).run [FrameOp.beginFrame "F1", FrameOp.enterZone 1 "pass"]

/-- The rest of a first frame after the zone "blur" was entered under "pass": the
sibling zone "bloom" is entered and left as well. -/
def FrameOp.restOfFirstFrame : List FrameOp :=
  [ FrameOp.exitZone, FrameOp.enterZone 3 "bloom", FrameOp.exitZone, FrameOp.exitZone,
    FrameOp.endFrame ]

/-- A second frame entering "pass", "blur" and "bloom" again, and the start of a
third frame up to the re-entry of "pass". -/
def FrameOp.laterFrames : List FrameOp :=
  [ FrameOp.beginFrame "F2", FrameOp.enterZone 1 "pass", FrameOp.enterZone 2 "blur",
    FrameOp.exitZone, FrameOp.enterZone 3 "bloom", FrameOp.exitZone, FrameOp.exitZone,
    FrameOp.endFrame, FrameOp.beginFrame "F3", FrameOp.enterZone 1 "pass" ]

end GaiApi

/-! ## `ComputeBuffer` (`src/src/Buffer/ComputeBuffer.cpp`) -/

/-- Number of values of the type `uint32_t`. -/
def U32 : Nat := 2 ^ 32

/-- Conversion of an `int32_t` to `uint32_t`. -/
def toUInt32 (i : Int) : Nat := (i % (U32 : Int)).toNat

/-- Conversion of a `uint32_t` to `int32_t`. -/
def toInt32 (n : Nat) : Int :=
  if n % U32 < 2 ^ 31 then ((n % U32 : Nat) : Int) else ((n % U32 : Nat) : Int) - (U32 : Int)

/-- What a call of a `ComputeBuffer` method gets from code outside the sources:
`clamp` is `ez::clamp(v, 1u, 8192u)` on a `ez::uvec2`, `emptyOR` is
`ez::uvec2::emptyOR()`, `CreateEmptyImage f i` tells whether the call of
`Texture2D::CreateEmptyImage` for element `i` of buffer set `f` returns a
non-null pointer. -/
structure ComputeBufferExternals where
  clamp : Nat × Nat → Nat × Nat
  emptyOR : Nat × Nat → Bool
  CreateEmptyImage : Nat → Nat → Bool

/-- The members of `ComputeBuffer` that its methods read and write. A
`Texture2DPtr` is recorded as `true` when it is non-null. The `float`
`m_OutputRatio` and the Vulkan handles are left out. -/
structure ComputeBuffer where
  m_PingPongBufferMode : Bool
  m_NeedResize : Bool
  m_Loaded : Bool
  m_CountBuffers : Nat
  m_TemporarySize : Int × Int
  m_TemporaryCountBuffer : Int
  m_CurrentFrame : Nat
  m_ComputeBuffers : List (List Bool)
  m_Format : Nat
  m_OutputSize : Nat × Nat × Nat
deriving DecidableEq, Repr

/-- The constructor `ComputeBuffer::ComputeBuffer`: every member has its default
member initialiser (`vk::Format::eR32G32B32A32Sfloat` is the value 109). -/
def ComputeBuffer.ctor : ComputeBuffer :=
  { m_PingPongBufferMode := false
    m_NeedResize := false
    m_Loaded := false
    m_CountBuffers := 0
    m_TemporarySize := (0, 0)
    m_TemporaryCountBuffer := 0
    m_CurrentFrame := 0
    m_ComputeBuffers := []
    m_Format := 109
    m_OutputSize := (0, 0, 0) }

/-- The method `ComputeBuffer::DestroyComputeBuffers`. -/
def ComputeBuffer.DestroyComputeBuffers (s : ComputeBuffer) : ComputeBuffer :=
  { s with m_ComputeBuffers := [] }

/-- One buffer set: `resize(m_CountBuffers)` followed by the loop that assigns
`Texture2D::CreateEmptyImage` to every element of set `frame`. -/
def ComputeBuffer.createSet (ext : ComputeBufferExternals) (frame count : Nat) : List Bool :=
  (List.range count).map (ext.CreateEmptyImage frame)

/-- The method `ComputeBuffer::CreateComputeBuffers`: the value returned and the
object afterwards. -/
def ComputeBuffer.CreateComputeBuffers (ext : ComputeBufferExternals) (s : ComputeBuffer)
    (vSize : Nat × Nat) (vCountColorBuffers : Nat) (_vFormat : Nat) : Bool × ComputeBuffer :=
  let countColorBuffers := if vCountColorBuffers = 0 then s.m_CountBuffers else vCountColorBuffers
  if 0 < countColorBuffers ∧ countColorBuffers ≤ 8 then
    let size := ext.clamp vSize
    if ext.emptyOR size = false then
      let set0 := ComputeBuffer.createSet ext 0 countColorBuffers
      let res0 := set0.all id
      if s.m_PingPongBufferMode then
        let set1 := ComputeBuffer.createSet ext 1 countColorBuffers
        (res0 && set1.all id,
          { s with m_CountBuffers := countColorBuffers
                   m_OutputSize := (size.1, size.2, 0)
                   m_ComputeBuffers := [set0, set1] })
      else
        (res0,
          { s with m_CountBuffers := countColorBuffers
                   m_OutputSize := (size.1, size.2, 0)
                   m_ComputeBuffers := [set0] })
    else (false, s)
  else (false, s)

/-- The method `ComputeBuffer::Init`; `corePtr` tells whether
`m_VulkanCore.lock()` is non-null. -/
def ComputeBuffer.Init (ext : ComputeBufferExternals) (corePtr : Bool) (s : ComputeBuffer)
    (vSize : Nat × Nat) (vCountColorBuffers : Nat) (vPingPongBufferMode : Bool)
    (vFormat : Nat) : Bool × ComputeBuffer :=
  let s0 := { s with m_Loaded := false }
  if corePtr then
    let size := ext.clamp vSize
    if ext.emptyOR size = false then
      let s1 := { s0 with m_PingPongBufferMode := vPingPongBufferMode
                          m_TemporarySize := (toInt32 size.1, toInt32 size.2)
                          m_TemporaryCountBuffer := toInt32 vCountColorBuffers
                          m_OutputSize := (size.1, size.2, 0)
                          m_Format := vFormat }
      let r := ComputeBuffer.CreateComputeBuffers ext s1 vSize vCountColorBuffers s1.m_Format
      if r.1 then (true, { r.2 with m_Loaded := true }) else (r.2.m_Loaded, r.2)
    else (s0.m_Loaded, s0)
  else (s0.m_Loaded, s0)

/-- The method `ComputeBuffer::NeedResize`; `none` is a null pointer argument. -/
def ComputeBuffer.NeedResize (s : ComputeBuffer) (vNewSize : Option (Int × Int))
    (vCountColorBuffers : Option Nat) : ComputeBuffer :=
  let s1 := match vNewSize with
    | some sz => { s with m_TemporarySize := sz, m_NeedResize := true }
    | none => s
  match vCountColorBuffers with
  | some c => { s1 with m_TemporaryCountBuffer := toInt32 c, m_NeedResize := true }
  | none => s1

/-- The method `ComputeBuffer::ResizeIfNeeded`: the value returned and the object
afterwards. The value returned by `CreateComputeBuffers` is discarded, as in
the source. -/
def ComputeBuffer.ResizeIfNeeded (ext : ComputeBufferExternals) (s : ComputeBuffer) :
    Bool × ComputeBuffer :=
  if s.m_NeedResize && s.m_Loaded then
    let s1 := s.DestroyComputeBuffers
    let s2 := (ComputeBuffer.CreateComputeBuffers ext s1
      (toUInt32 s1.m_TemporarySize.1, toUInt32 s1.m_TemporarySize.2)
      (toUInt32 s1.m_TemporaryCountBuffer) s1.m_Format).2
    (true,
      { s2 with m_TemporaryCountBuffer := toInt32 s2.m_CountBuffers
                m_TemporarySize := (toInt32 s2.m_OutputSize.1, toInt32 s2.m_OutputSize.2.1)
                m_NeedResize := false })
  else (false, s)

/-- The method `ComputeBuffer::Swap`; `1U - m_CurrentFrame` wraps modulo `2 ^ 32`. -/
def ComputeBuffer.Swap (s : ComputeBuffer) : ComputeBuffer :=
  if s.m_PingPongBufferMode then
    { s with m_CurrentFrame := (1 + U32 - s.m_CurrentFrame) % U32 }
  else s

/-- The method `ComputeBuffer::Begin`. -/
def ComputeBuffer.Begin (s : ComputeBuffer) : Bool := s.m_Loaded

/-- The method `ComputeBuffer::End`. -/
def ComputeBuffer.End (s : ComputeBuffer) : ComputeBuffer :=
  if s.m_Loaded then s.Swap else s

/-- The method `ComputeBuffer::GetBuffersCount`. -/
def ComputeBuffer.GetBuffersCount (s : ComputeBuffer) : Nat := s.m_CountBuffers

/-- An environment in which `ez::clamp` clamps each component to `1 .. 8192`,
`emptyOR` tests for a zero component and every image creation succeeds. -/
def ComputeBufferExternals.nominal : ComputeBufferExternals :=
  { clamp := fun v => (max 1 (min v.1 8192), max 1 (min v.2 8192))
    emptyOR := fun v => v.1 == 0 || v.2 == 0
    CreateEmptyImage := fun _ _ => true }

/-- A loaded buffer: constructed, then `Init` with size 16 x 16, one colour
buffer, no ping-pong, in the nominal environment. -/
def ComputeBuffer.loadedExample : ComputeBuffer :=
  (ComputeBuffer.Init ComputeBufferExternals.nominal true ComputeBuffer.ctor (16, 16) 1 false 109).2

/-- The loaded buffer after `NeedResize(nullptr, &count)` with `count = 9`. -/
def ComputeBuffer.resizeRequested : ComputeBuffer :=
  ComputeBuffer.loadedExample.NeedResize none (some 9)

/-- What the expression `m_ComputeBuffers[frame]` followed by the test on
`vBindingPoint` does in a getter: `element frame i` is the read of element `i`
of buffer set `frame`, `nullResult` the return of `nullptr` (or `false`) without
any access, `frameOutOfRange frame` the indexing of `m_ComputeBuffers` with an
index that is not below its size. -/
inductive BufferAccess where
  | nullResult
  | element (frame binding : Nat)
  | frameOutOfRange (frame : Nat)
deriving DecidableEq, Repr

/-- The statements `auto& buffers = m_ComputeBuffers[(size_t)frame];
if (vBindingPoint < buffers.size()) ...` shared by the three getters. -/
def ComputeBuffer.accessAt (s : ComputeBuffer) (frame vBindingPoint : Nat) : BufferAccess :=
  match s.m_ComputeBuffers[frame]? with
  | none => BufferAccess.frameOutOfRange frame
  | some buffers =>
    if vBindingPoint < buffers.length then BufferAccess.element frame vBindingPoint
    else BufferAccess.nullResult

/-- The frame index used by `GetFrontDescriptorImageInfo` and `UpdateMipMapping`. -/
def ComputeBuffer.frontFrame (s : ComputeBuffer) : Nat := s.m_CurrentFrame

/-- The frame index used by `GetBackDescriptorImageInfo`: `frame = m_CurrentFrame`,
replaced by `1U - frame` in ping-pong mode. -/
def ComputeBuffer.backFrame (s : ComputeBuffer) : Nat :=
  if s.m_PingPongBufferMode then (1 + U32 - s.m_CurrentFrame) % U32 else s.m_CurrentFrame

/-- The method `ComputeBuffer::GetFrontDescriptorImageInfo`. -/
def ComputeBuffer.GetFrontDescriptorImageInfo (s : ComputeBuffer) (vBindingPoint : Nat) :
    BufferAccess :=
  if vBindingPoint < s.m_CountBuffers then s.accessAt s.frontFrame vBindingPoint
  else BufferAccess.nullResult

/-- The method `ComputeBuffer::GetBackDescriptorImageInfo`. -/
def ComputeBuffer.GetBackDescriptorImageInfo (s : ComputeBuffer) (vBindingPoint : Nat) :
    BufferAccess :=
  if vBindingPoint < s.m_CountBuffers then s.accessAt s.backFrame vBindingPoint
  else BufferAccess.nullResult

/-- The method `ComputeBuffer::UpdateMipMapping`, as far as its indexing goes. -/
def ComputeBuffer.UpdateMipMapping (s : ComputeBuffer) (vBindingPoint : Nat) : BufferAccess :=
  if vBindingPoint < s.m_CountBuffers then s.accessAt s.frontFrame vBindingPoint
  else BufferAccess.nullResult

/-- A call of one of the public state-changing methods, with its arguments and
with what the environment answers during the call. -/
inductive ComputeBufferOp where
  | Init (ext : ComputeBufferExternals) (corePtr : Bool) (vSize : Nat × Nat)
      (vCountColorBuffers : Nat) (vPingPongBufferMode : Bool) (vFormat : Nat)
  | NeedResize (vNewSize : Option (Int × Int)) (vCountColorBuffers : Option Nat)
  | ResizeIfNeeded (ext : ComputeBufferExternals)
  | Begin
  | End
  | Swap

/-- The object after one call. -/
def ComputeBuffer.step (s : ComputeBuffer) : ComputeBufferOp → ComputeBuffer
  | ComputeBufferOp.Init ext corePtr vSize vCount vPingPong vFormat =>
    (ComputeBuffer.Init ext corePtr s vSize vCount vPingPong vFormat).2
  | ComputeBufferOp.NeedResize vNewSize vCount => s.NeedResize vNewSize vCount
  | ComputeBufferOp.ResizeIfNeeded ext => (ComputeBuffer.ResizeIfNeeded ext s).2
  | ComputeBufferOp.Begin => s
  | ComputeBufferOp.End => s.End
  | ComputeBufferOp.Swap => s.Swap

/-- The object after a sequence of calls, first to last. -/
def ComputeBuffer.run (s : ComputeBuffer) (ops : List ComputeBufferOp) : ComputeBuffer :=
  ops.foldl ComputeBuffer.step s

/-- The calls `Init(16x16, 1, false)`, `NeedResize(nullptr, &9)`, `ResizeIfNeeded()`. -/
def ComputeBufferOp.rejectedResize : List ComputeBufferOp :=
  [ ComputeBufferOp.Init ComputeBufferExternals.nominal true (16, 16) 1 false 109,
    ComputeBufferOp.NeedResize none (some 9),
    ComputeBufferOp.ResizeIfNeeded ComputeBufferExternals.nominal ]

/-- The calls `Init(16x16, 1, true)`, `End()`, `Init(16x16, 1, false)`. -/
def ComputeBufferOp.reinitOtherMode : List ComputeBufferOp :=
  [ ComputeBufferOp.Init ComputeBufferExternals.nominal true (16, 16) 1 true 109,
    ComputeBufferOp.End,
    ComputeBufferOp.Init ComputeBufferExternals.nominal true (16, 16) 1 false 109 ]

/-! # Theorems -/

namespace GaiApi
open vkProfAverageValue

set_option maxRecDepth 100000

/-! ## Auxiliary facts on lists and on `AddValue` -/

theorem getD_set_zero (l : List Nat) (i j a : Nat) :
    (l.set i a).getD j 0 = if i = j ∧ i < l.length then a else l.getD j 0 := by
  simp only [List.getD_eq_getElem?_getD, List.getElem?_set]
  by_cases h : i = j
  · subst h
    by_cases hl : i < l.length
    · simp [hl]
    · simp [hl, List.getElem?_eq_none (Nat.le_of_not_lt hl)]
  · simp [h]

theorem set_getD_self (l : List Nat) (i : Nat) : l.set i (l.getD i 0) = l := by
  induction l generalizing i with
  | nil => rfl
  | cons a t ih =>
    cases i with
    | zero => rfl
    | succ k =>
      show a :: t.set k (t.getD k 0) = a :: t
      rw [ih k]

theorem getD_replicate_zero (n j : Nat) : (List.replicate n 0).getD j 0 = 0 := by
  simp only [List.getD_eq_getElem?_getD, List.getElem?_replicate]
  by_cases h : j < n <;> simp [h]

theorem sCount_pos : 0 < sCountAverageValues := by decide

theorem sCount_lt_U64 : sCountAverageValues < U64 := by decide

theorem U64_pos : 0 < U64 := by decide

theorem resetIfSmaller_of_lt (s : vkProfAverageValue) (v : Nat) (h : v < s.slotAtCursor) :
    s.resetIfSmaller v = ctor := by
  simp [resetIfSmaller, h, ctor]

theorem resetIfSmaller_of_not_lt (s : vkProfAverageValue) (v : Nat) (h : ¬ v < s.slotAtCursor) :
    s.resetIfSmaller v = s := by
  simp [resetIfSmaller, h]

theorem slotAtCursor_ctor : ctor.slotAtCursor = 0 := by
  simp only [slotAtCursor, ctor]
  exact getD_replicate_zero _ _

theorem wrapping_sub_of_le (v old : Nat) (hv : v < U64) (h : old ≤ v) :
    (v + U64 - old) % U64 = v - old := by
  have h1 : v + U64 - old = (v - old) + U64 := by omega
  rw [h1, Nat.add_mod_right]
  exact Nat.mod_eq_of_lt (by omega)

theorem feed_append (s : vkProfAverageValue) (vs ws : List Nat) :
    s.feed (vs ++ ws) = (s.feed vs).feed ws := by
  simp [feed, List.foldl_append]

theorem feed_snoc (s : vkProfAverageValue) (vs : List Nat) (v : Nat) :
    s.feed (vs ++ [v]) = (s.feed vs).AddValue v := by
  simp [feed, List.foldl_append]

theorem feedResets_snoc (s : vkProfAverageValue) (vs : List Nat) (v : Nat) :
    s.feedResets (vs ++ [v]) =
      s.feedResets vs + (if v < (s.feed vs).slotAtCursor then 1 else 0) := by
  induction vs generalizing s with
  | nil => simp [feedResets, feed]
  | cons w ws ih =>
    have h := ih (s.AddValue w)
    show (if w < s.slotAtCursor then 1 else 0) + (s.AddValue w).feedResets (ws ++ [v]) = _
    rw [h]
    simp only [feedResets, feed, List.foldl_cons]
    omega

theorem WF_ctor : ctor.WF := by decide

theorem WF_AddValue (s : vkProfAverageValue) (v : Nat) (hs : s.WF) (hv : v < U64) :
    (s.AddValue v).WF := by
  have hs1 : (s.resetIfSmaller v).WF := by
    by_cases h : v < s.slotAtCursor
    · rw [resetIfSmaller_of_lt s v h]; exact WF_ctor
    · rw [resetIfSmaller_of_not_lt s v h]; exact hs
  obtain ⟨hlen, _, hall, _, havg⟩ := hs1
  refine ⟨?_, ?_, ?_, ?_, ?_⟩
  · simpa [AddValue] using hlen
  · exact Nat.mod_lt _ sCount_pos
  · intro x hx
    simp only [AddValue] at hx
    rcases List.mem_or_eq_of_mem_set hx with h | h
    · exact hall x h
    · exact h ▸ hv
  · exact Nat.mod_lt _ U64_pos
  · simp only [AddValue]
    split
    · exact lt_of_le_of_lt (Nat.div_le_self _ _) (Nat.mod_lt _ U64_pos)
    · exact havg

theorem WF_feed (s : vkProfAverageValue) (vs : List Nat) (hs : s.WF)
    (hv : ∀ x ∈ vs, x < U64) : (s.feed vs).WF := by
  induction vs generalizing s with
  | nil => simpa [feed] using hs
  | cons w ws ih =>
    have hw : w < U64 := hv w (by simp)
    have := ih (s.AddValue w) (WF_AddValue s w hs hw) (fun x hx => hv x (by simp [hx]))
    simpa [feed] using this

theorem avg_of_accum_pos (s : vkProfAverageValue) (v : Nat)
    (h : 0 < (s.AddValue v).m_PerFrameAccum) :
    (s.AddValue v).m_AverageValue = (s.AddValue v).m_PerFrameAccum / sCountAverageValues := by
  simp only [AddValue] at h ⊢
  rw [if_pos h]

/-- In every state built by `AddValue` calls from a constructed object, a
positive accumulator comes with the average computed from it. -/
theorem avg_inv_feed (vs : List Nat) :
    0 < (ctor.feed vs).m_PerFrameAccum →
      (ctor.feed vs).m_AverageValue = (ctor.feed vs).m_PerFrameAccum / sCountAverageValues := by
  induction vs using List.reverseRecOn with
  | nil => intro h; exact absurd h (by decide)
  | append_singleton l a _ =>
    rw [feed_snoc]
    exact avg_of_accum_pos _ _

theorem cursor_step (n : Nat) :
    (n % sCountAverageValues + 1) % U64 % sCountAverageValues = (n + 1) % sCountAverageValues := by
  simp only [sCountAverageValues, vkProf_MEAN_AVERAGE_LEVELS_COUNT, U64]
  omega

theorem cursor_step_of_lt (c : Nat) (h : c < sCountAverageValues) :
    (c + 1) % U64 % sCountAverageValues = (c + 1) % sCountAverageValues := by
  simp only [sCountAverageValues, vkProf_MEAN_AVERAGE_LEVELS_COUNT, U64] at h ⊢
  omega

theorem mod_window_ne (i n : Nat) (h1 : i < n) (h2 : n < i + sCountAverageValues) :
    ¬ n % sCountAverageValues = i % sCountAverageValues := by
  simp only [sCountAverageValues, vkProf_MEAN_AVERAGE_LEVELS_COUNT] at h2 ⊢
  omega

theorem mod_window_sub (n : Nat) (h : sCountAverageValues ≤ n) :
    (n - sCountAverageValues) % sCountAverageValues = n % sCountAverageValues := by
  simp only [sCountAverageValues, vkProf_MEAN_AVERAGE_LEVELS_COUNT] at h ⊢
  omega

/-- The fields of `AddValue s v` when the clearing branch is not taken. -/
theorem AddValue_of_not_lt (s : vkProfAverageValue) (v : Nat) (hv : v < U64)
    (h : ¬ v < s.slotAtCursor) :
    s.AddValue v =
      { m_PerFrame := s.m_PerFrame.set s.m_PerFrameIdx v
        m_PerFrameIdx := (s.m_PerFrameIdx + 1) % U64 % sCountAverageValues
        m_PerFrameAccum := (s.m_PerFrameAccum + (v - s.slotAtCursor)) % U64
        m_AverageValue :=
          if 0 < (s.m_PerFrameAccum + (v - s.slotAtCursor)) % U64 then
            (s.m_PerFrameAccum + (v - s.slotAtCursor)) % U64 / sCountAverageValues
          else s.m_AverageValue } := by
  simp only [AddValue, resetIfSmaller_of_not_lt s v h,
    wrapping_sub_of_le v s.slotAtCursor hv (Nat.le_of_not_lt h), gt_iff_lt]

theorem lastWindow_snoc (l : List Nat) (a : Nat) :
    lastWindow (l ++ [a]) = l.drop (l.length + 1 - sCountAverageValues) ++ [a] := by
  simp only [lastWindow, List.length_append, List.length_singleton]
  exact List.drop_append_of_le_length (by have := sCount_pos; omega)

theorem getD_snoc_lt (l : List Nat) (a i : Nat) (h : i < l.length) :
    (l ++ [a]).getD i 0 = l.getD i 0 := by
  simp only [List.getD_eq_getElem?_getD, List.getElem?_append_left h]

theorem getD_snoc_length (l : List Nat) (a : Nat) :
    (l ++ [a]).getD l.length 0 = a := by
  simp [List.getD_eq_getElem?_getD]

theorem getD_le_of_forall (l : List Nat) (i a : Nat) (h : ∀ x ∈ l, x ≤ a) :
    l.getD i 0 ≤ a := by
  by_cases hi : i < l.length
  · rw [List.getD_eq_getElem l 0 hi]
    exact h _ (List.getElem_mem hi)
  · simp [List.getD_eq_getElem?_getD, List.getElem?_eq_none (Nat.le_of_not_lt hi)]

/-- The state reached by feeding a non-decreasing list of `uint64_t` values to a
constructed object: no call clears the object, the cursor is the number of
values modulo the window, the slots hold the last values, the accumulator is
the wrapped sum of the last window. -/
theorem feed_sorted_inv (vs : List Nat) (hs : vs.Pairwise (· ≤ ·))
    (hv : ∀ x ∈ vs, x < U64) :
    ctor.feedResets vs = 0 ∧
    (ctor.feed vs).m_PerFrame.length = sCountAverageValues ∧
    (ctor.feed vs).m_PerFrameIdx = vs.length % sCountAverageValues ∧
    (∀ i, i < vs.length → vs.length ≤ i + sCountAverageValues →
      (ctor.feed vs).m_PerFrame.getD (i % sCountAverageValues) 0 = vs.getD i 0) ∧
    (∀ j, vs.length ≤ j → (ctor.feed vs).m_PerFrame.getD j 0 = 0) ∧
    (ctor.feed vs).m_PerFrameAccum = (lastWindow vs).sum % U64 ∧
    ((∀ x ∈ vs, x = 0) → (ctor.feed vs).m_AverageValue = 0) := by
  induction vs using List.reverseRecOn with
  | nil =>
    refine ⟨rfl, by decide, by decide, ?_, ?_, by decide, fun _ => rfl⟩
    · intro i hi; exact absurd hi (by simp)
    · intro j _; exact getD_replicate_zero _ _
  | append_singleton l a ih =>
    rw [List.pairwise_append] at hs
    obtain ⟨hsl, _, hle⟩ := hs
    have hla : ∀ x ∈ l, x ≤ a := fun x hx => hle x hx a (by simp)
    have ha : a < U64 := hv a (by simp)
    obtain ⟨ihr, ihlen, ihidx, ihc, ihd, ihe, ihf⟩ :=
      ih hsl (fun x hx => hv x (by simp [hx]))
    have hK := sCount_pos
    -- the slot at the cursor is the value fed one window ago
    have hslot : (ctor.feed l).slotAtCursor =
        if sCountAverageValues ≤ l.length then l.getD (l.length - sCountAverageValues) 0
        else 0 := by
      simp only [slotAtCursor, ihidx]
      split
      · rename_i hge
        rw [← mod_window_sub _ hge]
        exact ihc _ (by omega) (by omega)
      · rename_i hlt
        rw [Nat.mod_eq_of_lt (by omega)]
        exact ihd _ (Nat.le_refl _)
    have hslotle : (ctor.feed l).slotAtCursor ≤ a := by
      rw [hslot]; split
      · exact getD_le_of_forall l _ a hla
      · exact Nat.zero_le _
    have hnr : ¬ a < (ctor.feed l).slotAtCursor := Nat.not_lt.mpr hslotle
    have hstep := AddValue_of_not_lt (ctor.feed l) a ha hnr
    have haccum : ((ctor.feed l).m_PerFrameAccum + (a - (ctor.feed l).slotAtCursor)) % U64 =
        (lastWindow (l ++ [a])).sum % U64 := by
      rw [ihe, lastWindow_snoc, List.sum_append, List.sum_singleton, Nat.mod_add_mod]
      congr 1
      by_cases hge : sCountAverageValues ≤ l.length
      · have hd : lastWindow l =
            l.getD (l.length - sCountAverageValues) 0 ::
              l.drop (l.length + 1 - sCountAverageValues) := by
          have hi : l.length - sCountAverageValues < l.length := by omega
          rw [List.getD_eq_getElem l 0 hi, lastWindow, List.drop_eq_getElem_cons hi]
          congr 2
          omega
        rw [hslot, if_pos hge] at hslotle ⊢
        rw [hd, List.sum_cons]
        omega
      · have h0 : l.length - sCountAverageValues = 0 := by omega
        have h1 : l.length + 1 - sCountAverageValues = 0 := by omega
        rw [hslot, if_neg hge, lastWindow, h0, h1]
        omega
    rw [feed_snoc, feedResets_snoc, hstep]
    simp only [List.length_append, List.length_singleton, List.length_set]
    refine ⟨by simp [ihr, hnr], ihlen, ?_, ?_, ?_, haccum, ?_⟩
    · rw [ihidx]; exact cursor_step _
    · intro i hi hwin
      rw [getD_set_zero, ihidx]
      by_cases hil : i < l.length
      · rw [if_neg (fun h => mod_window_ne i l.length hil (by omega) h.1)]
        rw [getD_snoc_lt l a i hil]
        exact ihc i hil (by omega)
      · have hi' : i = l.length := by omega
        subst hi'
        rw [if_pos ⟨rfl, by rw [ihlen]; exact Nat.mod_lt _ hK⟩]
        exact (getD_snoc_length l a).symm
    · intro j hj
      rw [getD_set_zero, ihidx]
      have hne : ¬ (l.length % sCountAverageValues = j ∧
          l.length % sCountAverageValues < (ctor.feed l).m_PerFrame.length) := by
        intro h
        have := Nat.mod_le l.length sCountAverageValues
        omega
      rw [if_neg hne]
      exact ihd j (by omega)
    · intro hz
      have hsum : (lastWindow (l ++ [a])).sum = 0 := by
        apply List.sum_eq_zero
        intro x hx
        exact hz x (List.mem_of_mem_drop hx)
      rw [haccum, hsum]
      simp only [Nat.zero_mod, Nat.lt_irrefl, if_false]
      exact ihf (fun x hx => hz x (by simp [hx]))

/-! ## The running-average tracker (C1 to C7) -/

/-- C1 (counterexample): feeding the `uint64_t` value `2 ^ 63` sixty times to a
constructed tracker does not leave `GetAverage()` equal to `2 ^ 63`: the
accumulator wraps modulo `2 ^ 64` and the average returned is `2 ^ 63 / 60`. -/
theorem C1_counterexample_wrapping_sum :
    2 ^ 63 < U64 ∧
    (ctor.feed (List.replicate sCountAverageValues (2 ^ 63))).GetAverage = 2 ^ 63 / 60 ∧
    (ctor.feed (List.replicate sCountAverageValues (2 ^ 63))).GetAverage ≠ 2 ^ 63 := by
  decide

/-- C1 (amended): starting from a constructed tracker, for every value `v` whose
`sCountAverageValues`-fold sum fits in `uint64_t`, calling `AddValue(v)` exactly
`sCountAverageValues` times makes `GetAverage()` return exactly `v`. -/
theorem C1_identical_values_average (v : Nat) (h : sCountAverageValues * v < U64) :
    (ctor.feed (List.replicate sCountAverageValues v)).GetAverage = v := by
  have hK := sCount_pos
  have hvU : v < U64 := lt_of_le_of_lt (Nat.le_mul_of_pos_left v hK) h
  have hsorted : (List.replicate sCountAverageValues v).Pairwise (· ≤ ·) := by
    rw [List.pairwise_replicate]; exact Or.inr (Nat.le_refl v)
  have hall : ∀ x ∈ List.replicate sCountAverageValues v, x < U64 := by
    intro x hx; rw [List.eq_of_mem_replicate hx]; exact hvU
  obtain ⟨_, _, _, _, _, hacc, hzero⟩ := feed_sorted_inv _ hsorted hall
  have hwin : (lastWindow (List.replicate sCountAverageValues v)).sum =
      sCountAverageValues * v := by
    simp [lastWindow]
  rw [hwin, Nat.mod_eq_of_lt h] at hacc
  by_cases hv0 : v = 0
  · have hz := hzero (fun x hx => by rw [List.eq_of_mem_replicate hx]; exact hv0)
    rw [GetAverage, hz]
    exact hv0.symm
  · have hpos : 0 < (ctor.feed (List.replicate sCountAverageValues v)).m_PerFrameAccum := by
      rw [hacc]; exact Nat.mul_pos hK (Nat.pos_of_ne_zero hv0)
    rw [GetAverage, avg_inv_feed _ hpos, hacc]
    exact Nat.mul_div_cancel_left v hK

/-- Witness of C1 (amended) at `v = 1000`. -/
theorem C1_identical_values_average_witness :
    sCountAverageValues * 1000 < U64 ∧
    (ctor.feed (List.replicate sCountAverageValues 1000)).GetAverage = 1000 :=
  ⟨by decide, C1_identical_values_average 1000 (by decide)⟩

/-- C2: for every tracker state and every `uint64_t` value `v` strictly smaller
than the slot at the cursor, `AddValue(v)` gives the state that `AddValue(v)`
gives on a constructed tracker: slot 0 holds `v`, every other slot is 0, the
cursor is 1, the running sum is `v` and the average is `v / sCountAverageValues`,
whatever was fed before. -/
theorem C2_smaller_value_resets (s : vkProfAverageValue) (v : Nat) (hv : v < U64)
    (h : v < s.slotAtCursor) :
    s.feedResets [v] = 1 ∧
    s.AddValue v = ctor.AddValue v ∧
    (s.AddValue v).m_PerFrame = v :: List.replicate (sCountAverageValues - 1) 0 ∧
    (s.AddValue v).m_PerFrameIdx = 1 ∧
    (s.AddValue v).m_PerFrameAccum = v ∧
    (s.AddValue v).GetAverage = v / sCountAverageValues := by
  have h0 : ¬ v < ctor.slotAtCursor := by rw [slotAtCursor_ctor]; exact Nat.not_lt_zero v
  have heq : s.AddValue v = ctor.AddValue v := by
    simp only [AddValue, resetIfSmaller_of_lt s v h, resetIfSmaller_of_not_lt ctor v h0]
  refine ⟨by simp [feedResets, h], heq, ?_⟩
  rw [heq, AddValue_of_not_lt ctor v hv h0, slotAtCursor_ctor]
  refine ⟨rfl, ?_, ?_, ?_⟩
  · show (0 + 1) % U64 % sCountAverageValues = 1
    decide
  · show (0 + (v - 0)) % U64 = v
    rw [Nat.zero_add, Nat.sub_zero, Nat.mod_eq_of_lt hv]
  · show (if 0 < (0 + (v - 0)) % U64 then (0 + (v - 0)) % U64 / sCountAverageValues else 0) =
      v / sCountAverageValues
    rw [Nat.zero_add, Nat.sub_zero, Nat.mod_eq_of_lt hv]
    split
    · rfl
    · rename_i hn
      have : v = 0 := by omega
      rw [this, Nat.zero_div]

/-- Witness of C2: a tracker fed sixty times 60, then the smaller value 7. -/
theorem C2_smaller_value_resets_witness :
    (7 < U64 ∧ 7 < (ctor.feed (List.replicate 60 60)).slotAtCursor) ∧
    ((ctor.feed (List.replicate 60 60)).feedResets [7] = 1 ∧
     (ctor.feed (List.replicate 60 60)).AddValue 7 = ctor.AddValue 7 ∧
     ((ctor.feed (List.replicate 60 60)).AddValue 7).m_PerFrame =
       7 :: List.replicate (sCountAverageValues - 1) 0 ∧
     ((ctor.feed (List.replicate 60 60)).AddValue 7).m_PerFrameIdx = 1 ∧
     ((ctor.feed (List.replicate 60 60)).AddValue 7).m_PerFrameAccum = 7 ∧
     ((ctor.feed (List.replicate 60 60)).AddValue 7).GetAverage = 7 / sCountAverageValues) :=
  ⟨by decide, C2_smaller_value_resets _ 7 (by decide) (by decide)⟩

/-- C3 (counterexample): a tracker fed sixty times 60 has average 60; the call
`AddValue(0)` is a reset, leaves the running sum at 0 (not greater than 0) and
`GetAverage()` returns 0 afterwards, not the previous average 60. -/
theorem C3_counterexample_reset_drops_average :
    (ctor.feed (List.replicate 60 60)).WF ∧
    (ctor.feed (List.replicate 60 60)).GetAverage = 60 ∧
    ¬ 0 < ((ctor.feed (List.replicate 60 60)).AddValue 0).m_PerFrameAccum ∧
    ((ctor.feed (List.replicate 60 60)).AddValue 0).GetAverage = 0 ∧
    ((ctor.feed (List.replicate 60 60)).AddValue 0).GetAverage ≠
      (ctor.feed (List.replicate 60 60)).GetAverage := by
  decide

/-- C3 (amended): for every tracker state and value `v`, if the running sum
after `AddValue(v)` is not greater than 0, then `GetAverage()` after the call
equals `GetAverage()` before the call when the call was not a reset, and
equals 0 when the call was a reset. -/
theorem C3_average_when_sum_not_positive (s : vkProfAverageValue) (v : Nat)
    (h : ¬ 0 < (s.AddValue v).m_PerFrameAccum) :
    (s.AddValue v).GetAverage = if v < s.slotAtCursor then 0 else s.GetAverage := by
  simp only [AddValue, gt_iff_lt] at h
  simp only [GetAverage, AddValue, gt_iff_lt, if_neg h]
  by_cases hr : v < s.slotAtCursor
  · rw [resetIfSmaller_of_lt s v hr, if_pos hr]; rfl
  · rw [resetIfSmaller_of_not_lt s v hr, if_neg hr]

/-- Witness of C3 (amended): a constructed tracker fed the value 0. -/
theorem C3_average_when_sum_not_positive_witness :
    ¬ 0 < (ctor.AddValue 0).m_PerFrameAccum ∧
    (ctor.AddValue 0).GetAverage = if 0 < ctor.slotAtCursor then 0 else ctor.GetAverage :=
  ⟨by decide, C3_average_when_sum_not_positive ctor 0 (by decide)⟩

/-- C4: for every tracker state and value `v`, if the running sum after
`AddValue(v)` is greater than 0, then `GetAverage()` after the call is that
running sum divided (integer division) by the window `sCountAverageValues`. -/
theorem C4_average_is_sum_div_window (s : vkProfAverageValue) (v : Nat)
    (h : 0 < (s.AddValue v).m_PerFrameAccum) :
    (s.AddValue v).GetAverage = (s.AddValue v).m_PerFrameAccum / sCountAverageValues :=
  avg_of_accum_pos s v h

/-- Witness of C4: a constructed tracker fed the value 120. -/
theorem C4_average_is_sum_div_window_witness :
    0 < (ctor.AddValue 120).m_PerFrameAccum ∧
    (ctor.AddValue 120).GetAverage = (ctor.AddValue 120).m_PerFrameAccum / sCountAverageValues :=
  ⟨by decide, C4_average_is_sum_div_window ctor 120 (by decide)⟩

/-- C5: for every well-formed tracker state with cursor `c` and every `uint64_t`
value `v` that is not smaller than `slot[c]`, `AddValue(v)` performs no reset:
the new running sum is `runningSum + v - slot[c]` modulo `2 ^ 64`, `slot[c]`
becomes `v`, the cursor becomes `(c + 1) mod sCountAverageValues`, the number of
slots is unchanged and every slot other than `slot[c]` is unchanged. -/
theorem C5_no_reset_update (s : vkProfAverageValue) (v : Nat) (hs : s.WF) (hv : v < U64)
    (h : ¬ v < s.slotAtCursor) :
    s.feedResets [v] = 0 ∧
    s.resetIfSmaller v = s ∧
    (s.AddValue v).m_PerFrameAccum = (s.m_PerFrameAccum + v - s.slotAtCursor) % U64 ∧
    (s.AddValue v).m_PerFrame.getD s.m_PerFrameIdx 0 = v ∧
    (s.AddValue v).m_PerFrameIdx = (s.m_PerFrameIdx + 1) % sCountAverageValues ∧
    (s.AddValue v).m_PerFrame.length = s.m_PerFrame.length ∧
    (∀ j, j ≠ s.m_PerFrameIdx →
      (s.AddValue v).m_PerFrame.getD j 0 = s.m_PerFrame.getD j 0) := by
  obtain ⟨hlen, hidx, _, _, _⟩ := hs
  rw [AddValue_of_not_lt s v hv h]
  refine ⟨by simp [feedResets, h], resetIfSmaller_of_not_lt s v h, ?_, ?_, ?_, ?_, ?_⟩
  · show (s.m_PerFrameAccum + (v - s.slotAtCursor)) % U64 = _
    congr 1
    omega
  · show (s.m_PerFrame.set s.m_PerFrameIdx v).getD s.m_PerFrameIdx 0 = v
    rw [getD_set_zero, if_pos ⟨rfl, by rw [hlen]; exact hidx⟩]
  · exact cursor_step_of_lt _ hidx
  · exact List.length_set _ _ _
  · intro j hj
    show (s.m_PerFrame.set s.m_PerFrameIdx v).getD j 0 = _
    rw [getD_set_zero, if_neg (fun hc => hj hc.1.symm)]

/-- Witness of C5: a tracker fed 5 and 9, then the value 12. -/
theorem C5_no_reset_update_witness :
    ((ctor.feed [5, 9]).WF ∧ 12 < U64 ∧ ¬ 12 < (ctor.feed [5, 9]).slotAtCursor) ∧
    ((ctor.feed [5, 9]).feedResets [12] = 0 ∧
     (ctor.feed [5, 9]).resetIfSmaller 12 = ctor.feed [5, 9] ∧
     ((ctor.feed [5, 9]).AddValue 12).m_PerFrameAccum =
       ((ctor.feed [5, 9]).m_PerFrameAccum + 12 - (ctor.feed [5, 9]).slotAtCursor) % U64 ∧
     ((ctor.feed [5, 9]).AddValue 12).m_PerFrame.getD (ctor.feed [5, 9]).m_PerFrameIdx 0 = 12 ∧
     ((ctor.feed [5, 9]).AddValue 12).m_PerFrameIdx =
       ((ctor.feed [5, 9]).m_PerFrameIdx + 1) % sCountAverageValues ∧
     ((ctor.feed [5, 9]).AddValue 12).m_PerFrame.length = (ctor.feed [5, 9]).m_PerFrame.length ∧
     (∀ j, j ≠ (ctor.feed [5, 9]).m_PerFrameIdx →
       ((ctor.feed [5, 9]).AddValue 12).m_PerFrame.getD j 0 =
         (ctor.feed [5, 9]).m_PerFrame.getD j 0)) :=
  ⟨by decide, C5_no_reset_update (ctor.feed [5, 9]) 12 (by decide) (by decide) (by decide)⟩

/-- C6: in every tracker state reached from a constructed tracker by `AddValue`
calls with `uint64_t` values, `AddValue(v)` with `v` equal to the slot at the
cursor `c` does not reset the tracker: all slots, the running sum and the
average are the same as before the call and only the cursor advances to
`(c + 1) mod sCountAverageValues`. -/
theorem C6_equal_value_no_reset (vs : List Nat) (hv : ∀ x ∈ vs, x < U64) :
    (ctor.feed vs).feedResets [(ctor.feed vs).slotAtCursor] = 0 ∧
    (ctor.feed vs).AddValue (ctor.feed vs).slotAtCursor =
      { m_PerFrame := (ctor.feed vs).m_PerFrame
        m_PerFrameIdx := ((ctor.feed vs).m_PerFrameIdx + 1) % sCountAverageValues
        m_PerFrameAccum := (ctor.feed vs).m_PerFrameAccum
        m_AverageValue := (ctor.feed vs).m_AverageValue } := by
  have hwf := WF_feed ctor vs WF_ctor hv
  have hinv := avg_inv_feed vs
  obtain ⟨hlen, hidx, hall, hacc, _⟩ := hwf
  have hc : (ctor.feed vs).m_PerFrameIdx < (ctor.feed vs).m_PerFrame.length := by
    rw [hlen]; exact hidx
  have hslot : (ctor.feed vs).slotAtCursor =
      (ctor.feed vs).m_PerFrame[(ctor.feed vs).m_PerFrameIdx] :=
    List.getD_eq_getElem _ 0 hc
  have hsv : (ctor.feed vs).slotAtCursor < U64 := by
    rw [hslot]; exact hall _ (List.getElem_mem hc)
  have hnr : ¬ (ctor.feed vs).slotAtCursor < (ctor.feed vs).slotAtCursor := Nat.lt_irrefl _
  refine ⟨by simp [feedResets], ?_⟩
  rw [AddValue_of_not_lt _ _ hsv hnr]
  have hsum : ((ctor.feed vs).m_PerFrameAccum +
      ((ctor.feed vs).slotAtCursor - (ctor.feed vs).slotAtCursor)) % U64 =
      (ctor.feed vs).m_PerFrameAccum := by
    rw [Nat.sub_self, Nat.add_zero, Nat.mod_eq_of_lt hacc]
  have hset : (ctor.feed vs).m_PerFrame.set (ctor.feed vs).m_PerFrameIdx
      (ctor.feed vs).slotAtCursor = (ctor.feed vs).m_PerFrame := by
    exact set_getD_self _ _
  rw [hsum, hset, cursor_step_of_lt _ hidx]
  congr 1
  split
  · rename_i hpos
    exact (hinv hpos).symm
  · rfl

/-- Witness of C6: the tracker fed 5, 9 and 12. -/
theorem C6_equal_value_no_reset_witness :
    (∀ x ∈ [5, 9, 12], x < U64) ∧
    ((ctor.feed [5, 9, 12]).feedResets [(ctor.feed [5, 9, 12]).slotAtCursor] = 0 ∧
     (ctor.feed [5, 9, 12]).AddValue (ctor.feed [5, 9, 12]).slotAtCursor =
       { m_PerFrame := (ctor.feed [5, 9, 12]).m_PerFrame
         m_PerFrameIdx := ((ctor.feed [5, 9, 12]).m_PerFrameIdx + 1) % sCountAverageValues
         m_PerFrameAccum := (ctor.feed [5, 9, 12]).m_PerFrameAccum
         m_AverageValue := (ctor.feed [5, 9, 12]).m_AverageValue }) :=
  ⟨by decide, C6_equal_value_no_reset [5, 9, 12] (by decide)⟩

/-- C7: for every non-decreasing list of at least `sCountAverageValues`
`uint64_t` values whose last `sCountAverageValues` values have a positive sum
below `2 ^ 64`, feeding the list value by value with `AddValue` to a constructed
tracker triggers no reset and leaves `GetAverage()` equal to the sum of the last
`sCountAverageValues` values divided by `sCountAverageValues`; the older values
do not enter the result. -/
theorem C7_fixed_window_mean (vs : List Nat) (hn : sCountAverageValues ≤ vs.length)
    (hs : vs.Pairwise (· ≤ ·)) (hv : ∀ x ∈ vs, x < U64)
    (hpos : 0 < (lastWindow vs).sum) (hlt : (lastWindow vs).sum < U64) :
    (lastWindow vs).length = sCountAverageValues ∧
    ctor.feedResets vs = 0 ∧
    (ctor.feed vs).GetAverage = (lastWindow vs).sum / sCountAverageValues := by
  obtain ⟨hr, _, _, _, _, hacc, _⟩ := feed_sorted_inv vs hs hv
  rw [Nat.mod_eq_of_lt hlt] at hacc
  refine ⟨?_, hr, ?_⟩
  · simp only [lastWindow, List.length_drop]
    omega
  · rw [GetAverage, avg_inv_feed vs (by rw [hacc]; exact hpos), hacc]

/-- Witness of C7: the seventy values 0, 1, ..., 69; the last sixty sum to 2370. -/
theorem C7_fixed_window_mean_witness :
    (sCountAverageValues ≤ (List.range 70).length ∧
     (List.range 70).Pairwise (· ≤ ·) ∧
     (∀ x ∈ List.range 70, x < U64) ∧
     0 < (lastWindow (List.range 70)).sum ∧
     (lastWindow (List.range 70)).sum < U64) ∧
    ((lastWindow (List.range 70)).length = sCountAverageValues ∧
     ctor.feedResets (List.range 70) = 0 ∧
     (ctor.feed (List.range 70)).GetAverage =
       (lastWindow (List.range 70)).sum / sCountAverageValues) :=
  ⟨by decide,
   C7_fixed_window_mean (List.range 70) (by decide) (by decide) (by decide) (by decide)
     (by decide)⟩

/-! ## Invariants of the tracker over arbitrary feeds (C13, C14) -/

theorem sum_set_add (l : List Nat) (i v : Nat) (h : i < l.length) :
    (l.set i v).sum + l.getD i 0 = l.sum + v := by
  induction l generalizing i with
  | nil => exact absurd h (Nat.not_lt_zero i)
  | cons a t ih =>
    cases i with
    | zero =>
      show (v :: t).sum + a = (a :: t).sum + v
      simp only [List.sum_cons]
      omega
    | succ k =>
      have hk : k < t.length := Nat.lt_of_succ_lt_succ h
      have := ih k hk
      show (a :: t.set k v).sum + t.getD k 0 = (a :: t).sum + v
      simp only [List.sum_cons]
      omega

theorem not_lt_slot_resetIfSmaller (s : vkProfAverageValue) (v : Nat) :
    ¬ v < (s.resetIfSmaller v).slotAtCursor := by
  by_cases h : v < s.slotAtCursor
  · rw [resetIfSmaller_of_lt s v h, slotAtCursor_ctor]; exact Nat.not_lt_zero v
  · rw [resetIfSmaller_of_not_lt s v h]; exact h

theorem AddValue_resetIfSmaller (s : vkProfAverageValue) (v : Nat) :
    s.AddValue v = (s.resetIfSmaller v).AddValue v := by
  have h := not_lt_slot_resetIfSmaller s v
  simp only [AddValue, resetIfSmaller_of_not_lt (s.resetIfSmaller v) v h]

theorem sumInv_AddValue (s : vkProfAverageValue) (v : Nat) (hs : s.WF)
    (hi : s.m_PerFrameAccum = s.m_PerFrame.sum % U64) (hv : v < U64) :
    (s.AddValue v).m_PerFrameAccum = (s.AddValue v).m_PerFrame.sum % U64 := by
  have hs1 : (s.resetIfSmaller v).WF ∧
      (s.resetIfSmaller v).m_PerFrameAccum = (s.resetIfSmaller v).m_PerFrame.sum % U64 := by
    by_cases h : v < s.slotAtCursor
    · rw [resetIfSmaller_of_lt s v h]; exact ⟨WF_ctor, by decide⟩
    · rw [resetIfSmaller_of_not_lt s v h]; exact ⟨hs, hi⟩
  obtain ⟨⟨hlen, hidx, _, _, _⟩, hsum⟩ := hs1
  have hnr := not_lt_slot_resetIfSmaller s v
  rw [AddValue_resetIfSmaller, AddValue_of_not_lt _ v hv hnr]
  have hset := sum_set_add (s.resetIfSmaller v).m_PerFrame (s.resetIfSmaller v).m_PerFrameIdx v
    (by rw [hlen]; exact hidx)
  show ((s.resetIfSmaller v).m_PerFrameAccum + (v - (s.resetIfSmaller v).slotAtCursor)) % U64 =
    ((s.resetIfSmaller v).m_PerFrame.set (s.resetIfSmaller v).m_PerFrameIdx v).sum % U64
  rw [hsum, Nat.mod_add_mod]
  congr 1
  simp only [slotAtCursor] at hnr ⊢
  omega

theorem cursor_inv_AddValue (s : vkProfAverageValue) (v : Nat)
    (hlen : s.m_PerFrame.length = sCountAverageValues) :
    (s.AddValue v).m_PerFrame.length = sCountAverageValues ∧
    (s.AddValue v).m_PerFrameIdx < sCountAverageValues := by
  refine ⟨?_, Nat.mod_lt _ sCount_pos⟩
  show ((s.resetIfSmaller v).m_PerFrame.set _ v).length = sCountAverageValues
  rw [List.length_set]
  by_cases h : v < s.slotAtCursor
  · rw [resetIfSmaller_of_lt s v h]; decide
  · rw [resetIfSmaller_of_not_lt s v h]; exact hlen

theorem cursor_inv_feed (vs : List Nat) :
    (ctor.feed vs).m_PerFrame.length = sCountAverageValues ∧
    (ctor.feed vs).m_PerFrameIdx < sCountAverageValues := by
  induction vs using List.reverseRecOn with
  | nil => decide
  | append_singleton l a ih =>
    rw [feed_snoc]
    exact cursor_inv_AddValue _ a ih.1

/-- C13: for every list of `uint64_t` values fed with `AddValue` to a constructed
tracker, the running sum afterwards equals the sum of the slot values modulo
`2 ^ 64`; as the list is arbitrary this holds after every call, whether or not
a call cleared the tracker. -/
theorem C13_running_sum_is_slot_sum (vs : List Nat) (hv : ∀ x ∈ vs, x < U64) :
    (ctor.feed vs).m_PerFrameAccum = (ctor.feed vs).m_PerFrame.sum % U64 := by
  induction vs using List.reverseRecOn with
  | nil => decide
  | append_singleton l a ih =>
    have hl : ∀ x ∈ l, x < U64 := fun x hx => hv x (by simp [hx])
    rw [feed_snoc]
    exact sumInv_AddValue _ a (WF_feed ctor l WF_ctor hl) (ih hl) (hv a (by simp))

/-- Witness of C13: a feed in which the fourth call (value 3) clears the tracker
fed sixty values before. -/
theorem C13_running_sum_is_slot_sum_witness :
    (∀ x ∈ List.replicate 60 50 ++ [70, 80, 3, 9], x < U64) ∧
    (ctor.feed (List.replicate 60 50 ++ [70, 80, 3, 9])).m_PerFrameAccum =
      (ctor.feed (List.replicate 60 50 ++ [70, 80, 3, 9])).m_PerFrame.sum % U64 :=
  ⟨by decide, C13_running_sum_is_slot_sum _ (by decide)⟩

/-- C14: for every list of values fed with `AddValue` to a constructed tracker,
the cursor `m_PerFrameIdx` afterwards is below `sCountAverageValues` (60), which
is the number of slots, and the index used by the reads and the write of the
next call (after its optional clearing) is inside the slot array as well. -/
theorem C14_cursor_in_range (vs : List Nat) (v : Nat) :
    sCountAverageValues = 60 ∧
    (ctor.feed vs).m_PerFrameIdx < sCountAverageValues ∧
    (ctor.feed vs).m_PerFrameIdx < (ctor.feed vs).m_PerFrame.length ∧
    ((ctor.feed vs).resetIfSmaller v).m_PerFrameIdx <
      ((ctor.feed vs).resetIfSmaller v).m_PerFrame.length := by
  obtain ⟨hlen, hidx⟩ := cursor_inv_feed vs
  refine ⟨rfl, hidx, by rw [hlen]; exact hidx, ?_⟩
  by_cases h : v < (ctor.feed vs).slotAtCursor
  · rw [resetIfSmaller_of_lt _ v h]; decide
  · rw [resetIfSmaller_of_not_lt _ v h, hlen]; exact hidx

/-! ## Configuration constants (C9) -/

/-- C9: the configured defaults are the ones the specification names: query
capacity `sMaxQueryCount` 1024, maximum zone depth `sMaxDepth` 64, averaging
window (tracker slots) 60, breadcrumb length 20; the per-query tables have
`sMaxQueryCount` entries and the per-depth table has `sMaxDepth` entries. -/
theorem C9_configured_defaults :
    vkProfiler.sMaxQueryCount = 1024 ∧
    vkProfiler.sMaxDepth = 64 ∧
    vkProf_MEAN_AVERAGE_LEVELS_COUNT = 60 ∧
    sCountAverageValues = 60 ∧
    ctor.m_PerFrame.length = 60 ∧
    vkProf_RECURSIVE_LEVELS_COUNT = 20 ∧
    vkProfQueryZone.m_BreadCrumbTrail_init.length = 20 ∧
    vkProfilerTables.init.m_QueryIDToZone.length = vkProfiler.sMaxQueryCount ∧
    vkProfilerTables.init.m_TimeStampMeasures.length = vkProfiler.sMaxQueryCount ∧
    vkProfilerTables.init.m_DepthToLastZone.length = vkProfiler.sMaxDepth := by
  refine ⟨rfl, rfl, rfl, rfl, ?_, rfl, ?_, ?_, ?_, ?_⟩ <;>
    simp [ctor, vkProfQueryZone.m_BreadCrumbTrail_init, vkProfilerTables.init,
      sCountAverageValues, vkProf_MEAN_AVERAGE_LEVELS_COUNT, vkProf_RECURSIVE_LEVELS_COUNT]

/-! ## The timestamp ring (C10) -/

theorem allocate_ok (r : TimestampRing) (h : r.head + 2 ≤ r.capacity) :
    r.allocate = Except.ok ((r.head, r.head + 1), { capacity := r.capacity, head := r.head + 2 }) := by
  simp only [TimestampRing.allocate]
  rw [if_neg (by omega)]

theorem allocate_error (r : TimestampRing) (h : r.capacity < r.head + 2) :
    r.allocate = Except.error ProfilerError.QueryCapacityExceededError := by
  simp only [TimestampRing.allocate]
  rw [if_pos (by omega)]

theorem allocateMany_ok (n : Nat) (r : TimestampRing) (h : r.head + 2 * n ≤ r.capacity) :
    ∃ ids, r.allocateMany n =
        Except.ok (ids, { capacity := r.capacity, head := r.head + 2 * n }) ∧
      ids.length = n ∧
      ∀ p ∈ ids, p.1 ≠ p.2 ∧ p.1 < r.capacity ∧ p.2 < r.capacity := by
  induction n generalizing r with
  | zero => exact ⟨[], rfl, rfl, fun p hp => absurd hp (List.not_mem_nil p)⟩
  | succ k ih =>
    obtain ⟨ids, hids, hlen, hall⟩ :=
      ih { capacity := r.capacity, head := r.head + 2 } (by simp only; omega)
    refine ⟨(r.head, r.head + 1) :: ids, ?_, by simp [hlen], ?_⟩
    · simp only [TimestampRing.allocateMany, allocate_ok r (by omega), hids]
      congr 3
      omega
    · intro p hp
      rcases List.mem_cons.mp hp with h1 | h1
      · subst h1
        simp only
        omega
      · exact hall p h1

theorem allocateMany_error (n : Nat) (r : TimestampRing) (h : r.head + 2 * n ≤ r.capacity)
    (hfull : r.capacity < r.head + 2 * n + 2) :
    r.allocateMany (n + 1) = Except.error ProfilerError.QueryCapacityExceededError := by
  induction n generalizing r with
  | zero => simp only [TimestampRing.allocateMany, allocate_error r (by omega)]
  | succ k ih =>
    have hk := ih { capacity := r.capacity, head := r.head + 2 } (by simp only; omega)
      (by simp only; omega)
    rw [TimestampRing.allocateMany]
    simp only [allocate_ok r (by omega), hk]

/-- C10: an allocation made while `head + 2 <= capacity` succeeds and reserves
two distinct slot ids below the capacity, leaving `head <= capacity`; within
one frame (after `resetFrame`, no reset in between) the first `capacity / 2`
allocations succeed and the allocation number `capacity / 2 + 1` fails with
`QueryCapacityExceededError`, the head being at most the capacity. -/
theorem C10_query_allocation_bounded (r : TimestampRing) :
    (r.head + 2 ≤ r.capacity →
      r.allocate =
        Except.ok ((r.head, r.head + 1), { capacity := r.capacity, head := r.head + 2 }) ∧
      r.head ≠ r.head + 1 ∧ r.head < r.capacity ∧ r.head + 1 < r.capacity) ∧
    (∃ ids, r.resetFrame.allocateMany (r.capacity / 2) =
        Except.ok (ids, { capacity := r.capacity, head := 2 * (r.capacity / 2) }) ∧
      ids.length = r.capacity / 2 ∧
      (∀ p ∈ ids, p.1 ≠ p.2 ∧ p.1 < r.capacity ∧ p.2 < r.capacity) ∧
      2 * (r.capacity / 2) ≤ r.capacity ∧
      TimestampRing.allocate { capacity := r.capacity, head := 2 * (r.capacity / 2) } =
        Except.error ProfilerError.QueryCapacityExceededError) ∧
    r.resetFrame.allocateMany (r.capacity / 2 + 1) =
      Except.error ProfilerError.QueryCapacityExceededError := by
  have hle : 2 * (r.capacity / 2) ≤ r.capacity := Nat.mul_div_le r.capacity 2
  have hgt : r.capacity < 2 * (r.capacity / 2) + 2 := by omega
  refine ⟨fun h => ⟨allocate_ok r h, by omega, by omega, by omega⟩, ?_, ?_⟩
  · obtain ⟨ids, hids, hlen, hall⟩ :=
      allocateMany_ok (r.capacity / 2) r.resetFrame
        (by simp only [TimestampRing.resetFrame]; omega)
    refine ⟨ids, ?_, hlen, hall, hle, allocate_error _ (by simp only; omega)⟩
    rw [hids]
    simp only [TimestampRing.resetFrame, Nat.zero_add]
  · exact allocateMany_error (r.capacity / 2) r.resetFrame
      (by simp only [TimestampRing.resetFrame]; omega)
      (by simp only [TimestampRing.resetFrame]; omega)

/-- Witness of C10: a ring of capacity 1024 with head 6. -/
theorem C10_query_allocation_bounded_witness :
    (6 : Nat) + 2 ≤ 1024 ∧
    (TimestampRing.allocate { capacity := 1024, head := 6 } =
        Except.ok ((6, 6 + 1), { capacity := 1024, head := 6 + 2 }) ∧
      (6 : Nat) ≠ 6 + 1 ∧ (6 : Nat) < 1024 ∧ (6 : Nat) + 1 < 1024) :=
  ⟨by decide, (C10_query_allocation_bounded { capacity := 1024, head := 6 }).1 (by decide)⟩

end GaiApi

/-! ## `ComputeBuffer::ResizeIfNeeded` (C8) -/

/-- C8 (failing input): on a loaded buffer for which `NeedResize` requested 9
colour buffers, `CreateComputeBuffers` rejects the count and returns `false`,
no buffer set exists afterwards, and `ResizeIfNeeded` still returns `true`. -/
theorem C8_resize_true_without_buffers :
    ComputeBuffer.resizeRequested.m_Loaded = true ∧
    ComputeBuffer.resizeRequested.m_NeedResize = true ∧
    ComputeBuffer.resizeRequested.m_ComputeBuffers = [[true]] ∧
    (ComputeBuffer.CreateComputeBuffers ComputeBufferExternals.nominal
      ComputeBuffer.resizeRequested.DestroyComputeBuffers
      (toUInt32 ComputeBuffer.resizeRequested.m_TemporarySize.1,
        toUInt32 ComputeBuffer.resizeRequested.m_TemporarySize.2)
      (toUInt32 ComputeBuffer.resizeRequested.m_TemporaryCountBuffer)
      ComputeBuffer.resizeRequested.m_Format).1 = false ∧
    (ComputeBuffer.ResizeIfNeeded ComputeBufferExternals.nominal
      ComputeBuffer.resizeRequested).1 = true ∧
    (ComputeBuffer.ResizeIfNeeded ComputeBufferExternals.nominal
      ComputeBuffer.resizeRequested).2.m_ComputeBuffers = [] := by
  decide

/-! ## Frame indexing of `ComputeBuffer` (C15, C16) -/

/-- C15 (failing inputs): after a resize whose buffer creation was rejected the
buffer count is still 1 while `m_ComputeBuffers` is empty, and after
re-initialising a ping-pong buffer whose current frame is 1 without ping-pong
there is one buffer set while the current frame stays 1; in both states the
getters index `m_ComputeBuffers` outside its range for binding point 0, which
is below `GetBuffersCount()`. -/
theorem C15_frame_index_out_of_range :
    ((ComputeBuffer.ctor.run ComputeBufferOp.rejectedResize).GetBuffersCount = 1 ∧
     (ComputeBuffer.ctor.run ComputeBufferOp.rejectedResize).m_ComputeBuffers.length = 0 ∧
     (ComputeBuffer.ctor.run ComputeBufferOp.rejectedResize).GetFrontDescriptorImageInfo 0 =
       BufferAccess.frameOutOfRange 0 ∧
     (ComputeBuffer.ctor.run ComputeBufferOp.rejectedResize).GetBackDescriptorImageInfo 0 =
       BufferAccess.frameOutOfRange 0 ∧
     (ComputeBuffer.ctor.run ComputeBufferOp.rejectedResize).UpdateMipMapping 0 =
       BufferAccess.frameOutOfRange 0) ∧
    ((ComputeBuffer.ctor.run ComputeBufferOp.reinitOtherMode).GetBuffersCount = 1 ∧
     (ComputeBuffer.ctor.run ComputeBufferOp.reinitOtherMode).m_Loaded = true ∧
     (ComputeBuffer.ctor.run ComputeBufferOp.reinitOtherMode).m_ComputeBuffers.length = 1 ∧
     (ComputeBuffer.ctor.run ComputeBufferOp.reinitOtherMode).m_CurrentFrame = 1 ∧
     (ComputeBuffer.ctor.run ComputeBufferOp.reinitOtherMode).GetFrontDescriptorImageInfo 0 =
       BufferAccess.frameOutOfRange 1 ∧
     (ComputeBuffer.ctor.run ComputeBufferOp.reinitOtherMode).GetBackDescriptorImageInfo 0 =
       BufferAccess.frameOutOfRange 1 ∧
     (ComputeBuffer.ctor.run ComputeBufferOp.reinitOtherMode).UpdateMipMapping 0 =
       BufferAccess.frameOutOfRange 1) := by
  decide

namespace GaiApi

theorem map_getElem?_set (f : ZoneNode → β) (l : List ZoneNode) (i j : Nat) (n n1 : ZoneNode)
    (hi : l[i]? = some n) (hf : f n1 = f n) :
    ((l.set i n1)[j]?).map f = (l[j]?).map f := by
  rw [List.getElem?_set]
  by_cases hij : i = j
  · subst hij
    have hlt : i < l.length := (List.getElem?_eq_some.mp hi).1
    rw [if_pos rfl, if_pos hlt, hi]
    simp only [Option.map_some', hf]
  · rw [if_neg hij]

theorem getElem?_set_self_some (l : List ZoneNode) (i : Nat) (n n1 : ZoneNode)
    (hi : l[i]? = some n) : (l.set i n1)[i]? = some n1 := by
  have hlt : i < l.length := (List.getElem?_eq_some.mp hi).1
  rw [List.getElem?_set, if_pos rfl, if_pos hlt]

theorem linksOf_lt (reg : ZoneRegistry) (h : Nat) (x : Nat × Option Nat × Nat)
    (hx : reg.linksOf h = some x) : h < reg.nodes.length := by
  unfold ZoneRegistry.linksOf at hx
  cases hn : reg.nodes[h]? with
  | none => rw [hn] at hx; exact absurd hx (by simp)
  | some n => exact (List.getElem?_eq_some.mp hn).1

theorem kidsOf_lt (reg : ZoneRegistry) (h : Nat) (x : List ((Nat × String) × Nat))
    (hx : reg.kidsOf h = some x) : h < reg.nodes.length := by
  unfold ZoneRegistry.kidsOf at hx
  cases hn : reg.nodes[h]? with
  | none => rw [hn] at hx; exact absurd hx (by simp)
  | some n => exact (List.getElem?_eq_some.mp hn).1

theorem mem_of_lookup (k : Nat × String) (v : Nat) (l : List ((Nat × String) × Nat))
    (h : l.lookup k = some v) : (k, v) ∈ l := by
  induction l with
  | nil => exact absurd h (by simp)
  | cons a t ih =>
    obtain ⟨ka, va⟩ := a
    rw [List.lookup_cons] at h
    by_cases hk : (k == ka) = true
    · rw [hk] at h
      have hk1 : k = ka := by simpa using hk
      have hv : va = v := by simpa using h
      rw [hk1, hv]
      exact List.mem_cons_self _ _
    · have hk0 : (k == ka) = false := by simpa using hk
      rw [hk0] at h
      exact List.mem_cons_of_mem _ (ih h)

/-- The consistency of a registry only depends on the recorded links, the keyed
children and the keyed roots. -/
theorem Inv_congr (reg reg1 : ZoneRegistry)
    (hl : ∀ j, reg1.linksOf j = reg.linksOf j) (hk : ∀ j, reg1.kidsOf j = reg.kidsOf j)
    (hr : reg1.rootsByKey = reg.rootsByKey) (hinv : reg.Inv) : reg1.Inv := by
  obtain ⟨h1, h2, h3, h4⟩ := hinv
  refine ⟨?_, ?_, ?_, ?_⟩
  · intro h d r hx
    rw [hl] at hx
    exact h1 h d r hx
  · intro h d p r hx
    rw [hl] at hx
    obtain ⟨dp, pp, hp, hd⟩ := h2 h d p r hx
    exact ⟨dp, pp, by rw [hl]; exact hp, hd⟩
  · intro p kids hx kc hkc
    rw [hk] at hx
    obtain ⟨d, r, hc⟩ := h3 p kids hx kc hkc
    exact ⟨d, r, by rw [hl]; exact hc⟩
  · intro kc hkc
    rw [hr] at hkc
    obtain ⟨d, r, hc⟩ := h4 kc hkc
    exact ⟨d, r, by rw [hl]; exact hc⟩

/-- The consistency of a registry is kept when one node is added at the end of
the storage with consistent links and registered under its parent only. -/
theorem Inv_extend (reg reg1 : ZoneRegistry) (d0 : Nat) (par0 : Option Nat) (r0 : Nat)
    (hold : ∀ j, j < reg.nodes.length → reg1.linksOf j = reg.linksOf j)
    (hnew : reg1.linksOf reg.nodes.length = some (d0, par0, r0))
    (hpar : (par0 = none ∧ d0 = 0 ∧ r0 = reg.nodes.length) ∨
      (∃ p dp pp, par0 = some p ∧ reg.linksOf p = some (dp, pp, r0) ∧ d0 = dp + 1))
    (habove : ∀ j, reg.nodes.length < j → reg1.linksOf j = none)
    (hkids : ∀ j kids1, reg1.kidsOf j = some kids1 → ∀ kc ∈ kids1,
      (∃ kids, reg.kidsOf j = some kids ∧ kc ∈ kids) ∨ (kc.2 = reg.nodes.length ∧ par0 = some j))
    (hroots : ∀ kc ∈ reg1.rootsByKey,
      kc ∈ reg.rootsByKey ∨ (kc.2 = reg.nodes.length ∧ par0 = none))
    (hinv : reg.Inv) : reg1.Inv := by
  obtain ⟨h1, h2, h3, h4⟩ := hinv
  have hmono : ∀ j x, reg.linksOf j = some x → reg1.linksOf j = some x := by
    intro j x hx
    rw [hold j (linksOf_lt reg j x hx)]
    exact hx
  have hcases : ∀ j x, reg1.linksOf j = some x →
      (j < reg.nodes.length ∧ reg.linksOf j = some x) ∨
      (j = reg.nodes.length ∧ x = (d0, par0, r0)) := by
    intro j x hx
    rcases Nat.lt_trichotomy j reg.nodes.length with hlt | heq | hgt
    · left; exact ⟨hlt, by rw [← hold j hlt]; exact hx⟩
    · right
      subst heq
      rw [hnew] at hx
      exact ⟨rfl, (Option.some.inj hx).symm⟩
    · rw [habove j hgt] at hx
      exact absurd hx (by simp)
  refine ⟨?_, ?_, ?_, ?_⟩
  · intro h d r hx
    rcases hcases h _ hx with ⟨_, ho⟩ | ⟨hh, he⟩
    · exact h1 h d r ho
    · have e1 : d = d0 := congrArg Prod.fst he
      have e2 : (none : Option Nat) = par0 := congrArg (fun t => t.2.1) he
      have e3 : r = r0 := congrArg (fun t => t.2.2) he
      rcases hpar with ⟨_, hd, hr⟩ | ⟨p, _, _, hp, _, _⟩
      · exact ⟨by rw [e1, hd], by rw [e3, hr, hh]⟩
      · rw [hp] at e2
        exact absurd e2 (by simp)
  · intro h d p r hx
    rcases hcases h _ hx with ⟨_, ho⟩ | ⟨_, he⟩
    · obtain ⟨dp, pp, hp, hd⟩ := h2 h d p r ho
      exact ⟨dp, pp, hmono _ _ hp, hd⟩
    · have e1 : d = d0 := congrArg Prod.fst he
      have e2 : some p = par0 := congrArg (fun t => t.2.1) he
      have e3 : r = r0 := congrArg (fun t => t.2.2) he
      rcases hpar with ⟨hn, _, _⟩ | ⟨q, dq, pq, hq, hlq, hdq⟩
      · rw [hn] at e2
        exact absurd e2 (by simp)
      · rw [hq] at e2
        have hpq : p = q := Option.some.inj e2
        refine ⟨dq, pq, ?_, by rw [e1, hdq]⟩
        rw [hpq, e3]
        exact hmono _ _ hlq
  · intro p kids1 hx kc hkc
    rcases hkids p kids1 hx kc hkc with ⟨kids, hk, hm⟩ | ⟨hc, hp⟩
    · obtain ⟨d, r, hc⟩ := h3 p kids hk kc hm
      exact ⟨d, r, hmono _ _ hc⟩
    · refine ⟨d0, r0, ?_⟩
      rw [hc, hnew, hp]
  · intro kc hkc
    rcases hroots kc hkc with hm | ⟨hc, hp⟩
    · obtain ⟨d, r, hc⟩ := h4 kc hm
      exact ⟨d, r, hmono _ _ hc⟩
    · refine ⟨d0, r0, ?_⟩
      rw [hc, hnew, hp]

theorem getElem?_snoc_above (l : List ZoneNode) (x : ZoneNode) (j : Nat)
    (h : l.length < j) : (l ++ [x])[j]? = none := by
  apply List.getElem?_eq_none
  simp only [List.length_append, List.length_singleton]
  omega

theorem getElem?_set_snoc_above (l : List ZoneNode) (p : Nat) (y x : ZoneNode) (j : Nat)
    (h : l.length < j) : (l.set p y ++ [x])[j]? = none :=
  getElem?_snoc_above (l.set p y) x j (by rw [List.length_set]; exact h)

theorem getElem?_set_snoc_length (l : List ZoneNode) (p : Nat) (y x : ZoneNode) :
    (l.set p y ++ [x])[l.length]? = some x := by
  have h := List.getElem?_concat_length (l.set p y) x
  rw [List.length_set] at h
  exact h

theorem touch_links (f : Nat) (n : ZoneNode) :
    (n.touch f).depth = n.depth ∧ (n.touch f).parent = n.parent ∧ (n.touch f).root = n.root ∧
    (n.touch f).childrenByKey = n.childrenByKey ∧
    (n.touch f).childrenOrdered = n.childrenOrdered := by
  unfold ZoneNode.touch
  split <;> exact ⟨rfl, rfl, rfl, rfl, rfl⟩

theorem lock_none (reg : ZoneRegistry) : reg.lock none = none := rfl

theorem lock_some (reg : ZoneRegistry) (p : Nat) (pn : ZoneNode) (hp : reg.nodes[p]? = some pn) :
    reg.lock (some p) = some (p, pn) := by
  simp only [ZoneRegistry.lock, hp]

theorem resolve_found (reg : ZoneRegistry) (f key : Nat) (name : String)
    (parentNode : Option Nat) (h : Nat) (n : ZoneNode)
    (hlk : (reg.childrenByKeyOf parentNode).lookup (key, name) = some h)
    (hn : reg.nodes[h]? = some n) :
    reg.resolve f key name parentNode =
      (h, { reg with nodes := reg.nodes.set h (n.touch f) }) := by
  simp only [ZoneRegistry.resolve, hlk, hn]

theorem resolve_found_dangling (reg : ZoneRegistry) (f key : Nat) (name : String)
    (parentNode : Option Nat) (h : Nat)
    (hlk : (reg.childrenByKeyOf parentNode).lookup (key, name) = some h)
    (hn : reg.nodes[h]? = none) :
    reg.resolve f key name parentNode = (h, reg) := by
  simp only [ZoneRegistry.resolve, hlk, hn]

theorem resolve_new_root (reg : ZoneRegistry) (f key : Nat) (name : String)
    (parentNode : Option Nat)
    (hlk : (reg.childrenByKeyOf parentNode).lookup (key, name) = none)
    (hlock : reg.lock parentNode = none) :
    reg.resolve f key name parentNode =
      (reg.nodes.length,
        { nodes := reg.nodes ++
            [{ callSiteKey := key, name := name, depth := 0, parent := none,
               root := reg.nodes.length, childrenOrdered := [], childrenByKey := [],
               calledCountThisFrame := 1, lastTouchedFrameId := f,
               pendingQueryIds := (0, 0) }]
          rootsOrdered := reg.rootsOrdered ++ [reg.nodes.length]
          rootsByKey := ((key, name), reg.nodes.length) :: reg.rootsByKey }) := by
  simp only [ZoneRegistry.resolve, hlk, hlock]

theorem resolve_new_child (reg : ZoneRegistry) (f key : Nat) (name : String)
    (parentNode : Option Nat) (p : Nat) (pn : ZoneNode)
    (hlk : (reg.childrenByKeyOf parentNode).lookup (key, name) = none)
    (hlock : reg.lock parentNode = some (p, pn)) :
    reg.resolve f key name parentNode =
      (reg.nodes.length,
        { reg with
          nodes := reg.nodes.set p
              { pn with
                childrenOrdered := pn.childrenOrdered ++ [reg.nodes.length]
                childrenByKey := ((key, name), reg.nodes.length) :: pn.childrenByKey } ++
            [{ callSiteKey := key, name := name, depth := pn.depth + 1,
               parent := some p, root := pn.root, childrenOrdered := [], childrenByKey := [],
               calledCountThisFrame := 1, lastTouchedFrameId := f,
               pendingQueryIds := (0, 0) }] }) := by
  simp only [ZoneRegistry.resolve, hlk, hlock]

/-- What `resolve` gives on a consistent registry for an absent or stored
parent: the registry stays consistent, the links of the stored nodes are
kept, and the node returned records the given parent. -/
theorem resolve_spec (reg : ZoneRegistry) (f key : Nat) (name : String)
    (parentNode : Option Nat) (hinv : reg.Inv)
    (hpar : ∀ p, parentNode = some p → p < reg.nodes.length) :
    (reg.resolve f key name parentNode).2.Inv ∧
    (∀ j x, reg.linksOf j = some x → (reg.resolve f key name parentNode).2.linksOf j = some x) ∧
    (∃ d r, (reg.resolve f key name parentNode).2.linksOf (reg.resolve f key name parentNode).1 =
      some (d, parentNode, r)) := by
  -- the parent, when given, is stored
  have hlockcases : (parentNode = none ∧ reg.lock parentNode = none) ∨
      (∃ p pn, parentNode = some p ∧ reg.nodes[p]? = some pn ∧
        reg.lock parentNode = some (p, pn)) := by
    cases parentNode with
    | none => exact Or.inl ⟨rfl, rfl⟩
    | some p =>
      have hlt := hpar p rfl
      exact Or.inr ⟨p, reg.nodes[p], rfl, List.getElem?_eq_getElem hlt,
        lock_some reg p _ (List.getElem?_eq_getElem hlt)⟩
  cases hlk : (reg.childrenByKeyOf parentNode).lookup (key, name) with
  | some h =>
    have hmem := mem_of_lookup _ _ _ hlk
    -- the child found records the parent
    have hchild : ∃ d r, reg.linksOf h = some (d, parentNode, r) := by
      rcases hlockcases with ⟨hp, hl⟩ | ⟨p, pn, hp, hpn, hl⟩
      · simp only [ZoneRegistry.childrenByKeyOf, hl] at hmem
        rw [hp]
        exact hinv.2.2.2 _ hmem
      · simp only [ZoneRegistry.childrenByKeyOf, hl] at hmem
        rw [hp]
        exact hinv.2.2.1 p pn.childrenByKey (by simp only [ZoneRegistry.kidsOf, hpn,
          Option.map_some']) _ hmem
    obtain ⟨d, r, hd⟩ := hchild
    have hlt := linksOf_lt reg h _ hd
    have hn : reg.nodes[h]? = some reg.nodes[h] := List.getElem?_eq_getElem hlt
    rw [resolve_found reg f key name parentNode h _ hlk hn]
    have hl : ∀ j, ZoneRegistry.linksOf
        { reg with nodes := reg.nodes.set h (reg.nodes[h].touch f) } j = reg.linksOf j := by
      intro j
      exact map_getElem?_set _ reg.nodes h j _ _ hn
        (by simp only [(touch_links f reg.nodes[h]).1, (touch_links f reg.nodes[h]).2.1,
          (touch_links f reg.nodes[h]).2.2.1])
    have hk : ∀ j, ZoneRegistry.kidsOf
        { reg with nodes := reg.nodes.set h (reg.nodes[h].touch f) } j = reg.kidsOf j := by
      intro j
      exact map_getElem?_set _ reg.nodes h j _ _ hn (touch_links f reg.nodes[h]).2.2.2.1
    refine ⟨Inv_congr reg _ hl hk rfl hinv, ?_, d, r, ?_⟩
    · intro j x hx
      show ZoneRegistry.linksOf _ j = some x
      rw [hl]; exact hx
    · show ZoneRegistry.linksOf _ h = some (d, parentNode, r)
      rw [hl]; exact hd
  | none =>
    rcases hlockcases with ⟨hp, hl⟩ | ⟨p, pn, hp, hpn, hl⟩
    · rw [resolve_new_root reg f key name parentNode hlk hl]
      have hold : ∀ j, j < reg.nodes.length → ZoneRegistry.linksOf
          { nodes := reg.nodes ++
              [{ callSiteKey := key, name := name, depth := 0, parent := none,
                 root := reg.nodes.length, childrenOrdered := [], childrenByKey := [],
                 calledCountThisFrame := 1, lastTouchedFrameId := f,
                 pendingQueryIds := (0, 0) }]
            rootsOrdered := reg.rootsOrdered ++ [reg.nodes.length]
            rootsByKey := ((key, name), reg.nodes.length) :: reg.rootsByKey } j =
          reg.linksOf j := by
        intro j hj
        simp only [ZoneRegistry.linksOf, List.getElem?_append_left hj]
      have hnew : ZoneRegistry.linksOf
          { nodes := reg.nodes ++
              [{ callSiteKey := key, name := name, depth := 0, parent := none,
                 root := reg.nodes.length, childrenOrdered := [], childrenByKey := [],
                 calledCountThisFrame := 1, lastTouchedFrameId := f,
                 pendingQueryIds := (0, 0) }]
            rootsOrdered := reg.rootsOrdered ++ [reg.nodes.length]
            rootsByKey := ((key, name), reg.nodes.length) :: reg.rootsByKey } reg.nodes.length =
          some (0, none, reg.nodes.length) := by
        simp only [ZoneRegistry.linksOf, List.getElem?_concat_length, Option.map_some']
      refine ⟨Inv_extend reg _ 0 none reg.nodes.length hold hnew (Or.inl ⟨rfl, rfl, rfl⟩)
        ?_ ?_ ?_ hinv, ?_, 0, reg.nodes.length, ?_⟩
      · intro j hj
        simp only [ZoneRegistry.linksOf]
        rw [getElem?_snoc_above _ _ j hj]
        rfl
      · intro j kids1 hx kc hkc
        rcases Nat.lt_trichotomy j reg.nodes.length with hlt | heq | hgt
        · left
          refine ⟨kids1, ?_, hkc⟩
          simp only [ZoneRegistry.kidsOf, List.getElem?_append_left hlt] at hx
          exact hx
        · subst heq
          simp only [ZoneRegistry.kidsOf, List.getElem?_concat_length, Option.map_some',
            Option.some.injEq] at hx
          rw [← hx] at hkc
          exact absurd hkc (List.not_mem_nil _)
        · simp only [ZoneRegistry.kidsOf] at hx
          rw [getElem?_snoc_above _ _ j hgt] at hx
          exact absurd hx (by simp)
      · intro kc hkc
        rcases List.mem_cons.mp hkc with he | hm
        · right; exact ⟨by rw [he], rfl⟩
        · left; exact hm
      · intro j x hx
        show ZoneRegistry.linksOf _ j = some x
        rw [hold j (linksOf_lt reg j x hx)]; exact hx
      · show ZoneRegistry.linksOf _ reg.nodes.length = some (0, parentNode, reg.nodes.length)
        rw [hnew, hp]
    · rw [resolve_new_child reg f key name parentNode p pn hlk hl]
      have hlen : (reg.nodes.set p
          { pn with
            childrenOrdered := pn.childrenOrdered ++ [reg.nodes.length]
            childrenByKey := ((key, name), reg.nodes.length) :: pn.childrenByKey }).length =
          reg.nodes.length := List.length_set _ _ _
      have hold : ∀ j, j < reg.nodes.length → ZoneRegistry.linksOf
          { reg with
            nodes := reg.nodes.set p
                { pn with
                  childrenOrdered := pn.childrenOrdered ++ [reg.nodes.length]
                  childrenByKey := ((key, name), reg.nodes.length) :: pn.childrenByKey } ++
              [{ callSiteKey := key, name := name, depth := pn.depth + 1,
                 parent := some p, root := pn.root, childrenOrdered := [], childrenByKey := [],
                 calledCountThisFrame := 1, lastTouchedFrameId := f,
                 pendingQueryIds := (0, 0) }] } j = reg.linksOf j := by
        intro j hj
        simp only [ZoneRegistry.linksOf, List.getElem?_append_left (hlen.symm ▸ hj)]
        exact map_getElem?_set _ reg.nodes p j pn _ hpn rfl
      have hnew : ZoneRegistry.linksOf
          { reg with
            nodes := reg.nodes.set p
                { pn with
                  childrenOrdered := pn.childrenOrdered ++ [reg.nodes.length]
                  childrenByKey := ((key, name), reg.nodes.length) :: pn.childrenByKey } ++
              [{ callSiteKey := key, name := name, depth := pn.depth + 1,
                 parent := some p, root := pn.root, childrenOrdered := [], childrenByKey := [],
                 calledCountThisFrame := 1, lastTouchedFrameId := f,
                 pendingQueryIds := (0, 0) }] } reg.nodes.length =
          some (pn.depth + 1, some p, pn.root) := by
        simp only [ZoneRegistry.linksOf]
        rw [getElem?_set_snoc_length]
        rfl
      have hplinks : reg.linksOf p = some (pn.depth, pn.parent, pn.root) := by
        simp only [ZoneRegistry.linksOf, hpn, Option.map_some']
      refine ⟨Inv_extend reg _ (pn.depth + 1) (some p) pn.root hold hnew
        (Or.inr ⟨p, pn.depth, pn.parent, rfl, hplinks, rfl⟩) ?_ ?_ ?_ hinv, ?_,
        pn.depth + 1, pn.root, ?_⟩
      · intro j hj
        simp only [ZoneRegistry.linksOf]
        rw [getElem?_set_snoc_above _ _ _ _ j hj]
        rfl
      · intro j kids1 hx kc hkc
        rcases Nat.lt_trichotomy j reg.nodes.length with hlt | heq | hgt
        · simp only [ZoneRegistry.kidsOf, List.getElem?_append_left (hlen.symm ▸ hlt)] at hx
          by_cases hjp : p = j
          · subst hjp
            rw [getElem?_set_self_some reg.nodes p pn _ hpn] at hx
            simp only [Option.map_some', Option.some.injEq] at hx
            rw [← hx] at hkc
            rcases List.mem_cons.mp hkc with he | hm
            · right; exact ⟨by rw [he], rfl⟩
            · left
              exact ⟨pn.childrenByKey, by simp only [ZoneRegistry.kidsOf, hpn,
                Option.map_some'], hm⟩
          · rw [List.getElem?_set_ne hjp] at hx
            left
            exact ⟨kids1, hx, hkc⟩
        · subst heq
          simp only [ZoneRegistry.kidsOf] at hx
          rw [getElem?_set_snoc_length] at hx
          simp only [Option.map_some', Option.some.injEq] at hx
          rw [← hx] at hkc
          exact absurd hkc (List.not_mem_nil _)
        · simp only [ZoneRegistry.kidsOf] at hx
          rw [getElem?_set_snoc_above _ _ _ _ j hgt] at hx
          exact absurd hx (by simp)
      · intro kc hkc
        left; exact hkc
      · intro j x hx
        show ZoneRegistry.linksOf _ j = some x
        rw [hold j (linksOf_lt reg j x hx)]; exact hx
      · show ZoneRegistry.linksOf _ reg.nodes.length = some (pn.depth + 1, parentNode, pn.root)
        rw [hnew, hp]

theorem setPending_linksOf (reg : ZoneRegistry) (h : Nat) (ids : Nat × Nat) (j : Nat) :
    (reg.setPending h ids).linksOf j = reg.linksOf j := by
  unfold ZoneRegistry.setPending
  cases hn : reg.nodes[h]? with
  | none => rfl
  | some n => exact map_getElem?_set _ reg.nodes h j n _ hn rfl

theorem setPending_kidsOf (reg : ZoneRegistry) (h : Nat) (ids : Nat × Nat) (j : Nat) :
    (reg.setPending h ids).kidsOf j = reg.kidsOf j := by
  unfold ZoneRegistry.setPending
  cases hn : reg.nodes[h]? with
  | none => rfl
  | some n => exact map_getElem?_set _ reg.nodes h j n _ hn rfl

theorem setPending_rootsByKey (reg : ZoneRegistry) (h : Nat) (ids : Nat × Nat) :
    (reg.setPending h ids).rootsByKey = reg.rootsByKey := by
  unfold ZoneRegistry.setPending
  cases reg.nodes[h]? <;> rfl

theorem chainOK_mono (reg reg1 : ZoneRegistry)
    (hm : ∀ j x, reg.linksOf j = some x → reg1.linksOf j = some x) (st : List Nat)
    (hc : reg.chainOK st) : reg1.chainOK st := by
  induction st with
  | nil => exact True.intro
  | cons a t ih =>
    cases t with
    | nil =>
      obtain ⟨d, r, hx⟩ := hc
      exact ⟨d, r, hm _ _ hx⟩
    | cons b rest =>
      obtain ⟨⟨d, r, hx⟩, hrest⟩ := hc
      exact ⟨⟨d, r, hm _ _ hx⟩, ih hrest⟩

theorem chainOK_tail (reg : ZoneRegistry) (a : Nat) (t : List Nat)
    (hc : reg.chainOK (a :: t)) : reg.chainOK t := by
  cases t with
  | nil => exact True.intro
  | cons b rest => exact hc.2

theorem chainOK_head (reg : ZoneRegistry) (a : Nat) (t : List Nat)
    (hc : reg.chainOK (a :: t)) : ∃ d r, reg.linksOf a = some (d, t.head?, r) := by
  cases t with
  | nil => exact hc
  | cons b rest => exact hc.1

theorem ancestorAt_succ (reg : ZoneRegistry) (k a b d r : Nat)
    (ha : reg.linksOf a = some (d, some b, r)) :
    reg.ancestorAt (k + 1) a = reg.ancestorAt k b := by
  unfold ZoneRegistry.linksOf at ha
  cases hn : reg.nodes[a]? with
  | none => rw [hn] at ha; exact absurd ha (by simp)
  | some n =>
    rw [hn] at ha
    have hp : n.parent = some b := by
      have := Option.some.inj ha
      exact congrArg (fun t => t.2.1) this
    simp only [ZoneRegistry.ancestorAt, hn, hp]

/-- On a consistent registry the top of a parent chain of `k + 1` nodes has
depth `k`, the next node as parent, and its root reference is the node reached
by `k` parent steps, which has depth 0 and no parent. -/
theorem chain_top (reg : ZoneRegistry) (hinv : reg.Inv) (st : List Nat) (a : Nat)
    (hc : reg.chainOK (a :: st)) :
    ∃ r, reg.linksOf a = some (st.length, st.head?, r) ∧
      reg.ancestorAt st.length a = some r ∧ reg.linksOf r = some (0, none, r) := by
  induction st generalizing a with
  | nil =>
    obtain ⟨d, r, hx⟩ := hc
    obtain ⟨hd, hr⟩ := hinv.1 a d r hx
    subst hd; subst hr
    exact ⟨r, hx, rfl, hx⟩
  | cons b rest ih =>
    obtain ⟨⟨d, r, hx⟩, hrest⟩ := hc
    obtain ⟨rb, hb, hanc, hroot⟩ := ih b hrest
    obtain ⟨dp, pp, hp, hd⟩ := hinv.2.1 a d b r hx
    rw [hb] at hp
    have e := Option.some.inj hp
    have e1 : rest.length = dp := congrArg Prod.fst e
    have e3 : rb = r := congrArg (fun t => t.2.2) e
    refine ⟨r, ?_, ?_, ?_⟩
    · rw [hx, hd, ← e1]; rfl
    · show reg.ancestorAt (rest.length + 1) a = some r
      rw [ancestorAt_succ reg rest.length a b d r hx, hanc, e3]
    · rw [← e3]; exact hroot

theorem Inv_empty : ZoneRegistry.empty.Inv := by
  refine ⟨?_, ?_, ?_, ?_⟩
  · intro h d r hx; exact absurd hx (by simp [ZoneRegistry.linksOf, ZoneRegistry.empty])
  · intro h d p r hx; exact absurd hx (by simp [ZoneRegistry.linksOf, ZoneRegistry.empty])
  · intro p kids hx; exact absurd hx (by simp [ZoneRegistry.kidsOf, ZoneRegistry.empty])
  · intro kc hkc; exact absurd hkc (by simp [ZoneRegistry.empty])

theorem enterZone_inv (σ : FrameSession) (key : Nat) (name : String)
    (hinv : σ.registry.Inv) (hc : σ.registry.chainOK σ.stack) :
    (σ.enterZone key name).1.registry.Inv ∧
    (σ.enterZone key name).1.registry.chainOK (σ.enterZone key name).1.stack ∧
    (∀ h, (σ.enterZone key name).2 = Except.ok h →
      (σ.enterZone key name).1.stack = h :: σ.stack) := by
  have hpar : ∀ p, σ.stack.head? = some p → p < σ.registry.nodes.length := by
    intro p hp
    cases hst : σ.stack with
    | nil => rw [hst] at hp; exact absurd hp (by simp)
    | cons a t =>
      rw [hst] at hp hc
      have ha : a = p := by simpa using hp
      obtain ⟨d, r, hx⟩ := chainOK_head _ a t hc
      rw [← ha]
      exact linksOf_lt _ _ _ hx
  obtain ⟨hinv1, hmono, d, r, hnew⟩ :=
    resolve_spec σ.registry σ.frameId key name σ.stack.head? hinv hpar
  unfold FrameSession.enterZone
  split
  · exact ⟨hinv, hc, fun h hh => absurd hh (by simp)⟩
  · split
    · exact ⟨hinv1, chainOK_mono _ _ hmono _ hc, fun h hh => absurd hh (by simp)⟩
    · rename_i ids ring1 _
      refine ⟨?_, ?_, ?_⟩
      · exact Inv_congr _ _ (setPending_linksOf _ _ _) (setPending_kidsOf _ _ _)
          (setPending_rootsByKey _ _ _) hinv1
      · have hmono2 : ∀ j x, σ.registry.linksOf j = some x →
            (((σ.registry.resolve σ.frameId key name σ.stack.head?).2).setPending
              (σ.registry.resolve σ.frameId key name σ.stack.head?).1 ids).linksOf j = some x := by
          intro j x hx
          rw [setPending_linksOf]
          exact hmono j x hx
        have hnew2 : (((σ.registry.resolve σ.frameId key name σ.stack.head?).2).setPending
              (σ.registry.resolve σ.frameId key name σ.stack.head?).1 ids).linksOf
              (σ.registry.resolve σ.frameId key name σ.stack.head?).1 =
            some (d, σ.stack.head?, r) := by
          rw [setPending_linksOf]
          exact hnew
        show ZoneRegistry.chainOK _
          ((σ.registry.resolve σ.frameId key name σ.stack.head?).1 :: σ.stack)
        cases hst : σ.stack with
        | nil =>
          rw [hst] at hnew2
          exact ⟨d, r, hnew2⟩
        | cons b rest =>
          rw [hst] at hnew2 hmono2 hc
          exact ⟨⟨d, r, hnew2⟩, chainOK_mono _ _ hmono2 _ hc⟩
      · intro h hh
        have : (σ.registry.resolve σ.frameId key name σ.stack.head?).1 = h := by
          simpa using hh
        show (σ.registry.resolve σ.frameId key name σ.stack.head?).1 :: σ.stack = h :: σ.stack
        rw [this]

theorem beginFrame_inv (σ : FrameSession) (label : String)
    (hinv : σ.registry.Inv) (hc : σ.registry.chainOK σ.stack) :
    (σ.beginFrame label).1.registry.Inv ∧
    (σ.beginFrame label).1.registry.chainOK (σ.beginFrame label).1.stack := by
  unfold FrameSession.beginFrame
  split
  · exact ⟨hinv, hc⟩
  · exact ⟨hinv, True.intro⟩

theorem exitZone_inv (σ : FrameSession)
    (hinv : σ.registry.Inv) (hc : σ.registry.chainOK σ.stack) :
    σ.exitZone.1.registry.Inv ∧ σ.exitZone.1.registry.chainOK σ.exitZone.1.stack := by
  unfold FrameSession.exitZone
  split
  · exact ⟨hinv, hc⟩
  · rename_i a t hst
    rw [hst] at hc
    exact ⟨hinv, chainOK_tail _ a t hc⟩

theorem endFrame_inv (σ : FrameSession)
    (hinv : σ.registry.Inv) (hc : σ.registry.chainOK σ.stack) :
    σ.endFrame.1.registry.Inv ∧ σ.endFrame.1.registry.chainOK σ.endFrame.1.stack := by
  unfold FrameSession.endFrame
  split
  · exact ⟨hinv, hc⟩
  · exact ⟨hinv, True.intro⟩

theorem step_inv (σ : FrameSession) (op : FrameOp)
    (hinv : σ.registry.Inv) (hc : σ.registry.chainOK σ.stack) :
    (σ.step op).registry.Inv ∧ (σ.step op).registry.chainOK (σ.step op).stack := by
  cases op with
  | beginFrame label => exact beginFrame_inv σ label hinv hc
  | enterZone key name =>
    exact ⟨(enterZone_inv σ key name hinv hc).1, (enterZone_inv σ key name hinv hc).2.1⟩
  | exitZone => exact exitZone_inv σ hinv hc
  | endFrame => exact endFrame_inv σ hinv hc

theorem run_inv (ops : List FrameOp) (σ : FrameSession)
    (hinv : σ.registry.Inv) (hc : σ.registry.chainOK σ.stack) :
    (σ.run ops).registry.Inv ∧ (σ.run ops).registry.chainOK (σ.run ops).stack := by
  induction ops generalizing σ with
  | nil => exact ⟨hinv, hc⟩
  | cons op rest ih =>
    exact ih (σ.step op) (step_inv σ op hinv hc).1 (step_inv σ op hinv hc).2

theorem linksOf_node (reg : ZoneRegistry) (h d : Nat) (par : Option Nat) (r : Nat)
    (hx : reg.linksOf h = some (d, par, r)) :
    ∃ n, reg.nodes[h]? = some n ∧ n.depth = d ∧ n.parent = par ∧ n.root = r := by
  unfold ZoneRegistry.linksOf at hx
  cases hn : reg.nodes[h]? with
  | none => rw [hn] at hx; exact absurd hx (by simp)
  | some n =>
    rw [hn] at hx
    have e := Option.some.inj hx
    exact ⟨n, rfl, congrArg Prod.fst e, congrArg (fun t => t.2.1) e,
      congrArg (fun t => t.2.2) e⟩

/-- C11: in every session reached from the initial one by `beginFrame`,
`enterZone`, `exitZone` and `endFrame` calls, a zone entered while `d` zones
are open on the stack records depth `d` and the top of the stack as parent;
its depth is 0 when it has no parent and its parent's depth plus one
otherwise; its root back-reference is the ancestor reached by `d` parent
steps, which has depth 0 and no parent. -/
theorem C11_zone_depth_and_root (capacity : Nat) (ops : List FrameOp) (σ : FrameSession)
    (hσ : σ = (FrameSession.init capacity).run ops) (key : Nat) (name : String) (h : Nat)
    (hok : (σ.enterZone key name).2 = Except.ok h) :
    ∃ node rootNode,
      (σ.enterZone key name).1.registry.nodes[h]? = some node ∧
      node.depth = σ.stack.length ∧
      node.parent = σ.stack.head? ∧
      (node.parent = none → node.depth = 0) ∧
      (∀ p, node.parent = some p →
        ∃ pn, (σ.enterZone key name).1.registry.nodes[p]? = some pn ∧
          node.depth = pn.depth + 1) ∧
      (σ.enterZone key name).1.registry.ancestorAt node.depth h = some node.root ∧
      (σ.enterZone key name).1.registry.nodes[node.root]? = some rootNode ∧
      rootNode.depth = 0 ∧ rootNode.parent = none := by
  have hrun := run_inv ops (FrameSession.init capacity) Inv_empty True.intro
  rw [← hσ] at hrun
  obtain ⟨hinv1, hc1, hst⟩ := enterZone_inv σ key name hrun.1 hrun.2
  rw [hst h hok] at hc1
  obtain ⟨r, hl, hanc, hroot⟩ := chain_top _ hinv1 σ.stack h hc1
  obtain ⟨node, hnode, hd, hp, hr⟩ := linksOf_node _ _ _ _ _ hl
  obtain ⟨rootNode, hrn, hrd, hrp, _⟩ := linksOf_node _ _ _ _ _ hroot
  refine ⟨node, rootNode, hnode, hd, hp, ?_, ?_, ?_, ?_, hrd, hrp⟩
  · intro hnone
    rw [hp] at hnone
    cases hs : σ.stack with
    | nil => rw [hd, hs]; rfl
    | cons b rest => rw [hs] at hnone; exact absurd hnone (by simp)
  · intro p hsome
    rw [hp] at hsome
    cases hs : σ.stack with
    | nil => rw [hs] at hsome; exact absurd hsome (by simp)
    | cons b rest =>
      rw [hs] at hsome hc1
      have hb : b = p := by simpa using hsome
      obtain ⟨rb, hlb, _, _⟩ := chain_top _ hinv1 rest b hc1.2
      obtain ⟨pn, hpn, hpd, _, _⟩ := linksOf_node _ _ _ _ _ hlb
      refine ⟨pn, by rw [← hb]; exact hpn, ?_⟩
      rw [hd, hs, hpd]
      rfl
  · rw [hd, hr]; exact hanc
  · rw [hr]; exact hrn

/-- Witness of C11: a frame in which the zone "pass" is open when the zone
"blur" is entered; "blur" becomes node 1. -/
theorem C11_zone_depth_and_root_witness :
    ((FrameSession.init 1024).run [FrameOp.beginFrame "F", FrameOp.enterZone 1 "pass"] =
        (FrameSession.init 1024).run [FrameOp.beginFrame "F", FrameOp.enterZone 1 "pass"] ∧
      (((FrameSession.init 1024).run
        [FrameOp.beginFrame "F", FrameOp.enterZone 1 "pass"]).enterZone 2 "blur").2 =
        Except.ok 1) ∧
    ∃ node rootNode,
      (((FrameSession.init 1024).run
        [FrameOp.beginFrame "F", FrameOp.enterZone 1 "pass"]).enterZone 2 "blur").1.registry.nodes[1]? =
        some node ∧
      node.depth = ((FrameSession.init 1024).run
        [FrameOp.beginFrame "F", FrameOp.enterZone 1 "pass"]).stack.length ∧
      node.parent = ((FrameSession.init 1024).run
        [FrameOp.beginFrame "F", FrameOp.enterZone 1 "pass"]).stack.head? ∧
      (node.parent = none → node.depth = 0) ∧
      (∀ p, node.parent = some p →
        ∃ pn, (((FrameSession.init 1024).run
          [FrameOp.beginFrame "F", FrameOp.enterZone 1 "pass"]).enterZone 2
            "blur").1.registry.nodes[p]? = some pn ∧
          node.depth = pn.depth + 1) ∧
      (((FrameSession.init 1024).run
        [FrameOp.beginFrame "F", FrameOp.enterZone 1 "pass"]).enterZone 2
          "blur").1.registry.ancestorAt node.depth 1 = some node.root ∧
      (((FrameSession.init 1024).run
        [FrameOp.beginFrame "F", FrameOp.enterZone 1 "pass"]).enterZone 2
          "blur").1.registry.nodes[node.root]? = some rootNode ∧
      rootNode.depth = 0 ∧ rootNode.parent = none :=
  ⟨⟨rfl, rfl⟩,
    C11_zone_depth_and_root 1024 [FrameOp.beginFrame "F", FrameOp.enterZone 1 "pass"] _ rfl
      2 "blur" 1 rfl⟩

theorem lock_eq_some (reg : ZoneRegistry) (parentNode : Option Nat) (p : Nat) (pn : ZoneNode)
    (h : reg.lock parentNode = some (p, pn)) :
    parentNode = some p ∧ reg.nodes[p]? = some pn := by
  cases parentNode with
  | none => exact absurd h (by simp [ZoneRegistry.lock])
  | some q =>
    cases hq : reg.nodes[q]? with
    | none => simp [ZoneRegistry.lock, hq] at h
    | some qn =>
      simp only [ZoneRegistry.lock, hq, Option.some.injEq, Prod.mk.injEq] at h
      obtain ⟨h1, h2⟩ := h
      subst h1; subst h2
      exact ⟨rfl, hq⟩

theorem lock_eq_none (reg : ZoneRegistry) (parentNode : Option Nat)
    (hpar : ∀ p, parentNode = some p → p < reg.nodes.length)
    (h : reg.lock parentNode = none) : parentNode = none := by
  cases parentNode with
  | none => rfl
  | some q =>
    have hlt := hpar q rfl
    rw [lock_some reg q _ (List.getElem?_eq_getElem hlt)] at h
    exact absurd h (by simp)

theorem childrenOf_set (reg : ZoneRegistry) (h : Nat) (n n1 : ZoneNode)
    (hn : reg.nodes[h]? = some n) (hk : n1.childrenByKey = n.childrenByKey)
    (ho : n1.childrenOrdered = n.childrenOrdered) (parentNode : Option Nat) :
    ZoneRegistry.childrenByKeyOf { reg with nodes := reg.nodes.set h n1 } parentNode =
      reg.childrenByKeyOf parentNode ∧
    ZoneRegistry.childrenOrderedOf { reg with nodes := reg.nodes.set h n1 } parentNode =
      reg.childrenOrderedOf parentNode := by
  cases parentNode with
  | none => exact ⟨rfl, rfl⟩
  | some p =>
    by_cases hp : h = p
    · subst hp
      simp only [ZoneRegistry.childrenByKeyOf, ZoneRegistry.childrenOrderedOf,
        ZoneRegistry.lock, getElem?_set_self_some reg.nodes h n n1 hn, hn, hk, ho, and_self]
    · simp only [ZoneRegistry.childrenByKeyOf, ZoneRegistry.childrenOrderedOf,
        ZoneRegistry.lock, List.getElem?_set_ne hp, and_self]

/-- Resolving an identity that the parent already has returns the child found
and leaves the keyed and ordered children and the number of nodes as they
are. -/
theorem resolve_again (reg : ZoneRegistry) (f key : Nat) (name : String)
    (parentNode : Option Nat) (h : Nat)
    (hlk : (reg.childrenByKeyOf parentNode).lookup (key, name) = some h) :
    (reg.resolve f key name parentNode).1 = h ∧
    ((reg.resolve f key name parentNode).2.childrenByKeyOf parentNode).lookup (key, name) =
      some h ∧
    (reg.resolve f key name parentNode).2.childrenOrderedOf parentNode =
      reg.childrenOrderedOf parentNode ∧
    (reg.resolve f key name parentNode).2.nodes.length = reg.nodes.length := by
  cases hn : reg.nodes[h]? with
  | none =>
    rw [resolve_found_dangling reg f key name parentNode h hlk hn]
    exact ⟨rfl, hlk, rfl, rfl⟩
  | some n =>
    rw [resolve_found reg f key name parentNode h n hlk hn]
    obtain ⟨hk, ho⟩ := childrenOf_set reg h n (n.touch f) hn (touch_links f n).2.2.2.1
      (touch_links f n).2.2.2.2 parentNode
    refine ⟨rfl, ?_, ho, List.length_set _ _ _⟩
    show List.lookup (key, name) (ZoneRegistry.childrenByKeyOf _ parentNode) = some h
    rw [hk]; exact hlk

/-- After `resolve` the parent has the identity among its keyed children, mapped
to the node returned. -/
theorem resolve_registers (reg : ZoneRegistry) (f key : Nat) (name : String)
    (parentNode : Option Nat) (hpar : ∀ p, parentNode = some p → p < reg.nodes.length) :
    ((reg.resolve f key name parentNode).2.childrenByKeyOf parentNode).lookup (key, name) =
      some (reg.resolve f key name parentNode).1 := by
  cases hlk : (reg.childrenByKeyOf parentNode).lookup (key, name) with
  | some h =>
    obtain ⟨h1, h2, _, _⟩ := resolve_again reg f key name parentNode h hlk
    rw [h1]; exact h2
  | none =>
    cases hl : reg.lock parentNode with
    | none =>
      have hp := lock_eq_none reg parentNode hpar hl
      rw [resolve_new_root reg f key name parentNode hlk hl, hp]
      show List.lookup (key, name) (((key, name), reg.nodes.length) :: reg.rootsByKey) = _
      exact List.lookup_cons_self
    | some ppn =>
      obtain ⟨p, pn⟩ := ppn
      obtain ⟨hp, hpn⟩ := lock_eq_some reg parentNode p pn hl
      rw [resolve_new_child reg f key name parentNode p pn hlk hl, hp]
      have hlt : p < reg.nodes.length := (List.getElem?_eq_some.mp hpn).1
      have hget : (reg.nodes.set p
            { pn with
              childrenOrdered := pn.childrenOrdered ++ [reg.nodes.length]
              childrenByKey := ((key, name), reg.nodes.length) :: pn.childrenByKey } ++
          [{ callSiteKey := key, name := name, depth := pn.depth + 1,
             parent := some p, root := pn.root, childrenOrdered := [], childrenByKey := [],
             calledCountThisFrame := 1, lastTouchedFrameId := f,
             pendingQueryIds := (0, 0) }])[p]? =
          some { pn with
              childrenOrdered := pn.childrenOrdered ++ [reg.nodes.length]
              childrenByKey := ((key, name), reg.nodes.length) :: pn.childrenByKey } := by
        rw [List.getElem?_append_left (by rw [List.length_set]; exact hlt)]
        exact getElem?_set_self_some reg.nodes p pn _ hpn
      simp only [ZoneRegistry.childrenByKeyOf, ZoneRegistry.lock, hget]
      exact List.lookup_cons_self

theorem resolveEachFrame_found (fs : List Nat) (reg : ZoneRegistry) (key : Nat) (name : String)
    (parentNode : Option Nat) (h : Nat)
    (hlk : (reg.childrenByKeyOf parentNode).lookup (key, name) = some h) :
    (∀ x ∈ (reg.resolveEachFrame key name parentNode fs).1, x = h) ∧
    (reg.resolveEachFrame key name parentNode fs).1.length = fs.length ∧
    (reg.resolveEachFrame key name parentNode fs).2.childrenOrderedOf parentNode =
      reg.childrenOrderedOf parentNode ∧
    (reg.resolveEachFrame key name parentNode fs).2.nodes.length = reg.nodes.length := by
  induction fs generalizing reg with
  | nil => exact ⟨fun x hx => absurd hx (List.not_mem_nil x), rfl, rfl, rfl⟩
  | cons f rest ih =>
    obtain ⟨h1, h2, h3, h4⟩ := resolve_again reg f key name parentNode h hlk
    obtain ⟨i1, i2, i3, i4⟩ := ih (reg.resolve f key name parentNode).2 h2
    simp only [ZoneRegistry.resolveEachFrame]
    refine ⟨?_, by simp only [List.length_cons, i2], by rw [i3, h3], by rw [i4, h4]⟩
    intro x hx
    rcases List.mem_cons.mp hx with hx1 | hx1
    · rw [hx1, h1]
    · exact i1 x hx1

/-- Resolving an identity under an absent or stored parent and then again, with
nothing in between, once in each of a list of further frames returns the same
node every time and leaves the parent's ordered child list and the number of
nodes as they are after the first call. -/
theorem resolveEachFrame_same_node (reg : ZoneRegistry) (key : Nat) (name : String)
    (parentNode : Option Nat) (f : Nat) (fs : List Nat)
    (hpar : ∀ p, parentNode = some p → p < reg.nodes.length) :
    (∀ x ∈ ((reg.resolve f key name parentNode).2.resolveEachFrame key name parentNode fs).1,
      x = (reg.resolve f key name parentNode).1) ∧
    ((reg.resolve f key name parentNode).2.resolveEachFrame key name parentNode fs).1.length =
      fs.length ∧
    (((reg.resolve f key name parentNode).2.resolveEachFrame key name
        parentNode fs).2.childrenOrderedOf parentNode).length =
      ((reg.resolve f key name parentNode).2.childrenOrderedOf parentNode).length ∧
    ((reg.resolve f key name parentNode).2.resolveEachFrame key name parentNode fs).2.nodes.length =
      (reg.resolve f key name parentNode).2.nodes.length := by
  obtain ⟨h1, h2, h3, h4⟩ := resolveEachFrame_found fs (reg.resolve f key name parentNode).2
    key name parentNode _ (resolve_registers reg f key name parentNode hpar)
  exact ⟨h1, h2, by rw [h3], h4⟩

/-! ### Registrations over arbitrary session activity -/

theorem childrenOf_some (reg : ZoneRegistry) (p : Nat) (pn : ZoneNode)
    (hp : reg.nodes[p]? = some pn) :
    reg.childrenByKeyOf (some p) = pn.childrenByKey ∧
    reg.childrenOrderedOf (some p) = pn.childrenOrdered := by
  simp only [ZoneRegistry.childrenByKeyOf, ZoneRegistry.childrenOrderedOf, ZoneRegistry.lock,
    hp, and_self]

theorem childrenOf_dangling (reg : ZoneRegistry) (p : Nat) (hp : reg.nodes[p]? = none) :
    reg.childrenByKeyOf (some p) = reg.childrenByKeyOf none ∧
    reg.childrenOrderedOf (some p) = reg.childrenOrderedOf none := by
  simp only [ZoneRegistry.childrenByKeyOf, ZoneRegistry.childrenOrderedOf, ZoneRegistry.lock,
    hp, and_self]

theorem lookup_cons_ne (k k1 : Nat × String) (v : Nat) (l : List ((Nat × String) × Nat))
    (h : k ≠ k1) : List.lookup k ((k1, v) :: l) = List.lookup k l := by
  rw [List.lookup_cons]
  have hb : (k == k1) = false := by simpa using h
  rw [hb]

theorem not_mem_keys_of_lookup (k : Nat × String) (l : List ((Nat × String) × Nat))
    (h : l.lookup k = none) : k ∉ l.map Prod.fst := by
  induction l with
  | nil => simp
  | cons a t ih =>
    obtain ⟨ka, va⟩ := a
    by_cases hk : k = ka
    · subst hk
      rw [List.lookup_cons_self] at h
      exact absurd h (by simp)
    · rw [lookup_cons_ne k ka va t hk] at h
      simp only [List.map_cons, List.mem_cons, not_or]
      exact ⟨hk, ih h⟩

/-- A call of `resolve` that finds the identity changes no child list and
creates no node. -/
theorem resolve_found_children (reg : ZoneRegistry) (f key : Nat) (name : String)
    (parentNode : Option Nat) (h : Nat)
    (hlk : (reg.childrenByKeyOf parentNode).lookup (key, name) = some h) (q : Option Nat) :
    (reg.resolve f key name parentNode).2.childrenByKeyOf q = reg.childrenByKeyOf q ∧
    (reg.resolve f key name parentNode).2.childrenOrderedOf q = reg.childrenOrderedOf q ∧
    (reg.resolve f key name parentNode).2.nodes.length = reg.nodes.length := by
  cases hn : reg.nodes[h]? with
  | none =>
    rw [resolve_found_dangling reg f key name parentNode h hlk hn]
    exact ⟨rfl, rfl, rfl⟩
  | some n =>
    rw [resolve_found reg f key name parentNode h n hlk hn]
    obtain ⟨hk, ho⟩ := childrenOf_set reg h n (n.touch f) hn (touch_links f n).2.2.2.1
      (touch_links f n).2.2.2.2 q
    exact ⟨hk, ho, List.length_set _ _ _⟩

/-- A call of `resolve` that does not find the identity under an absent or
stored parent creates one node, at the end of the storage and without
children, and registers it under that parent only. -/
theorem resolve_new_children (reg : ZoneRegistry) (f key : Nat) (name : String)
    (parentNode : Option Nat) (hpar : ∀ p, parentNode = some p → p < reg.nodes.length)
    (hlk : (reg.childrenByKeyOf parentNode).lookup (key, name) = none) :
    (reg.resolve f key name parentNode).2.nodes.length = reg.nodes.length + 1 ∧
    (∃ x, (reg.resolve f key name parentNode).2.nodes[reg.nodes.length]? = some x ∧
      x.childrenByKey = [] ∧ x.childrenOrdered = []) ∧
    (∀ q : Option Nat, (∀ p, q = some p → p < reg.nodes.length) →
      (reg.resolve f key name parentNode).2.childrenByKeyOf q =
        (if q = parentNode then [((key, name), reg.nodes.length)] else []) ++
          reg.childrenByKeyOf q ∧
      (reg.resolve f key name parentNode).2.childrenOrderedOf q =
        reg.childrenOrderedOf q ++ (if q = parentNode then [reg.nodes.length] else [])) := by
  cases hl : reg.lock parentNode with
  | none =>
    have hp := lock_eq_none reg parentNode hpar hl
    rw [resolve_new_root reg f key name parentNode hlk hl]
    refine ⟨by simp only [List.length_append, List.length_singleton],
      ⟨_, List.getElem?_concat_length _ _, rfl, rfl⟩, ?_⟩
    intro q hq
    cases q with
    | none =>
      rw [hp, if_pos rfl, if_pos rfl]
      exact ⟨rfl, rfl⟩
    | some p =>
      have hlt := hq p rfl
      have hne : ¬ (some p = parentNode) := by rw [hp]; simp
      rw [if_neg hne, if_neg hne]
      have h1 : reg.nodes[p]? = some reg.nodes[p] := List.getElem?_eq_getElem hlt
      have h2 : (reg.nodes ++
          [{ callSiteKey := key, name := name, depth := 0, parent := none,
             root := reg.nodes.length, childrenOrdered := [], childrenByKey := [],
             calledCountThisFrame := 1, lastTouchedFrameId := f,
             pendingQueryIds := (0, 0) }])[p]? = some reg.nodes[p] := by
        rw [List.getElem?_append_left hlt]; exact h1
      rw [(childrenOf_some reg p _ h1).1, (childrenOf_some reg p _ h1).2,
        (childrenOf_some _ p _ h2).1, (childrenOf_some _ p _ h2).2]
      simp only [List.nil_append, List.append_nil, and_self]
  | some ppn =>
    obtain ⟨p1, pn⟩ := ppn
    obtain ⟨hp, hpn⟩ := lock_eq_some reg parentNode p1 pn hl
    have hlt1 : p1 < reg.nodes.length := (List.getElem?_eq_some.mp hpn).1
    rw [resolve_new_child reg f key name parentNode p1 pn hlk hl]
    refine ⟨by simp only [List.length_append, List.length_singleton, List.length_set],
      ⟨_, getElem?_set_snoc_length _ _ _ _, rfl, rfl⟩, ?_⟩
    intro q hq
    cases q with
    | none =>
      have hne : ¬ ((none : Option Nat) = parentNode) := by rw [hp]; simp
      rw [if_neg hne, if_neg hne]
      simp only [List.nil_append, List.append_nil]
      exact ⟨rfl, rfl⟩
    | some p =>
      have hlt := hq p rfl
      have h1 : reg.nodes[p]? = some reg.nodes[p] := List.getElem?_eq_getElem hlt
      by_cases hpp : p = p1
      · subst hpp
        have hnode : reg.nodes[p] = pn := by
          rw [h1] at hpn; exact Option.some.inj hpn
        have h2 : (reg.nodes.set p
              { pn with
                childrenOrdered := pn.childrenOrdered ++ [reg.nodes.length]
                childrenByKey := ((key, name), reg.nodes.length) :: pn.childrenByKey } ++
            [{ callSiteKey := key, name := name, depth := pn.depth + 1,
               parent := some p, root := pn.root, childrenOrdered := [], childrenByKey := [],
               calledCountThisFrame := 1, lastTouchedFrameId := f,
               pendingQueryIds := (0, 0) }])[p]? =
            some { pn with
              childrenOrdered := pn.childrenOrdered ++ [reg.nodes.length]
              childrenByKey := ((key, name), reg.nodes.length) :: pn.childrenByKey } := by
          rw [List.getElem?_append_left (by rw [List.length_set]; exact hlt)]
          exact getElem?_set_self_some reg.nodes p pn _ hpn
        rw [hp, if_pos rfl, if_pos rfl, (childrenOf_some reg p _ hpn).1,
          (childrenOf_some reg p _ hpn).2, (childrenOf_some _ p _ h2).1,
          (childrenOf_some _ p _ h2).2]
        exact ⟨rfl, rfl⟩
      · have hne : ¬ (some p = parentNode) := by
          rw [hp]; intro hc; exact hpp (Option.some.inj hc)
        have h2 : (reg.nodes.set p1
              { pn with
                childrenOrdered := pn.childrenOrdered ++ [reg.nodes.length]
                childrenByKey := ((key, name), reg.nodes.length) :: pn.childrenByKey } ++
            [{ callSiteKey := key, name := name, depth := pn.depth + 1,
               parent := some p1, root := pn.root, childrenOrdered := [], childrenByKey := [],
               calledCountThisFrame := 1, lastTouchedFrameId := f,
               pendingQueryIds := (0, 0) }])[p]? = some reg.nodes[p] := by
          rw [List.getElem?_append_left (by rw [List.length_set]; exact hlt),
            List.getElem?_set_ne (fun hc => hpp hc.symm)]
          exact h1
        rw [if_neg hne, if_neg hne, (childrenOf_some reg p _ h1).1,
          (childrenOf_some reg p _ h1).2, (childrenOf_some _ p _ h2).1,
          (childrenOf_some _ p _ h2).2]
        simp only [List.nil_append, List.append_nil, and_self]

/-- What any call of `resolve` with an absent or stored parent does to the rest
of the registry: the storage does not shrink, every registration under an
absent or stored parent is kept, the child lists only change when a node is
created, and no identity gets registered twice. -/
theorem resolve_effect (reg : ZoneRegistry) (f key : Nat) (name : String)
    (parentNode : Option Nat) (hpar : ∀ p, parentNode = some p → p < reg.nodes.length) :
    reg.nodes.length ≤ (reg.resolve f key name parentNode).2.nodes.length ∧
    (∀ (q : Option Nat) (k : Nat × String) (h : Nat),
      (∀ p, q = some p → p < reg.nodes.length) →
      (reg.childrenByKeyOf q).lookup k = some h →
      ((reg.resolve f key name parentNode).2.childrenByKeyOf q).lookup k = some h) ∧
    ((reg.resolve f key name parentNode).2.nodes.length = reg.nodes.length →
      ∀ q, (reg.resolve f key name parentNode).2.childrenOrderedOf q =
        reg.childrenOrderedOf q) ∧
    (reg.NoDuplicates → (reg.resolve f key name parentNode).2.NoDuplicates) := by
  cases hlk : (reg.childrenByKeyOf parentNode).lookup (key, name) with
  | some h0 =>
    have hsame := resolve_found_children reg f key name parentNode h0 hlk
    refine ⟨Nat.le_of_eq (hsame none).2.2.symm, ?_, fun _ q => (hsame q).2.1, ?_⟩
    · intro q k h _ hq
      rw [(hsame q).1]; exact hq
    · intro hnd q
      rw [(hsame q).1, (hsame q).2.1]
      exact hnd q
  | none =>
    obtain ⟨hlen, ⟨x, hx, hxk, hxo⟩, hch⟩ :=
      resolve_new_children reg f key name parentNode hpar hlk
    refine ⟨by omega, ?_, fun hc => absurd hc (by omega), ?_⟩
    · intro q k h hq hqk
      rw [(hch q hq).1]
      by_cases hqp : q = parentNode
      · rw [if_pos hqp]
        have hne : k ≠ (key, name) := by
          intro hc
          rw [hc, hqp, hlk] at hqk
          exact absurd hqk (by simp)
        show List.lookup k (((key, name), reg.nodes.length) :: reg.childrenByKeyOf q) = some h
        rw [lookup_cons_ne k (key, name) _ _ hne]
        exact hqk
      · rw [if_neg hqp]
        exact hqk
    · intro hnd
      -- an absent or stored parent reference
      have hvalid : ∀ q : Option Nat, (∀ p, q = some p → p < reg.nodes.length) →
          ((reg.resolve f key name parentNode).2.childrenOrderedOf q).length =
            ((reg.resolve f key name parentNode).2.childrenByKeyOf q).length ∧
          (((reg.resolve f key name parentNode).2.childrenByKeyOf q).map Prod.fst).Nodup := by
        intro q hq
        rw [(hch q hq).1, (hch q hq).2]
        obtain ⟨hl, hn⟩ := hnd q
        by_cases hqp : q = parentNode
        · rw [if_pos hqp, if_pos hqp]
          refine ⟨by simp only [List.length_append, List.length_singleton, hl,
            List.length_cons, List.length_nil]; omega, ?_⟩
          show ((((key, name), reg.nodes.length) :: reg.childrenByKeyOf q).map Prod.fst).Nodup
          rw [List.map_cons, List.nodup_cons]
          exact ⟨by rw [hqp]; exact not_mem_keys_of_lookup _ _ hlk, hn⟩
        · rw [if_neg hqp, if_neg hqp]
          simp only [List.nil_append, List.append_nil]
          exact ⟨hl, hn⟩
      intro q
      cases q with
      | none => exact hvalid none (fun p hp => absurd hp (by simp))
      | some p =>
        rcases Nat.lt_trichotomy p reg.nodes.length with hlt | heq | hgt
        · exact hvalid (some p) (fun p1 hp1 => by rw [← Option.some.inj hp1]; exact hlt)
        · subst heq
          rw [(childrenOf_some _ _ x hx).1, (childrenOf_some _ _ x hx).2, hxk, hxo]
          exact ⟨rfl, List.nodup_nil⟩
        · have hnone : (reg.resolve f key name parentNode).2.nodes[p]? = none :=
            List.getElem?_eq_none (by omega)
          rw [(childrenOf_dangling _ p hnone).1, (childrenOf_dangling _ p hnone).2]
          exact hvalid none (fun p hp => absurd hp (by simp))

theorem setPending_children (reg : ZoneRegistry) (h : Nat) (ids : Nat × Nat) (q : Option Nat) :
    (reg.setPending h ids).childrenByKeyOf q = reg.childrenByKeyOf q ∧
    (reg.setPending h ids).childrenOrderedOf q = reg.childrenOrderedOf q ∧
    (reg.setPending h ids).nodes.length = reg.nodes.length := by
  unfold ZoneRegistry.setPending
  cases hn : reg.nodes[h]? with
  | none => exact ⟨rfl, rfl, rfl⟩
  | some n =>
    obtain ⟨hk, ho⟩ := childrenOf_set reg h n { n with pendingQueryIds := ids } hn rfl rfl q
    exact ⟨hk, ho, List.length_set _ _ _⟩

theorem NoDuplicates_empty : ZoneRegistry.empty.NoDuplicates := by
  intro q
  cases q with
  | none => exact ⟨rfl, List.nodup_nil⟩
  | some p => exact ⟨rfl, List.nodup_nil⟩

theorem stack_head_valid (reg : ZoneRegistry) (st : List Nat) (hc : reg.chainOK st) :
    ∀ p, st.head? = some p → p < reg.nodes.length := by
  intro p hp
  cases st with
  | nil => exact absurd hp (by simp)
  | cons a t =>
    have ha : a = p := by simpa using hp
    obtain ⟨d, r, hx⟩ := chainOK_head _ a t hc
    rw [← ha]
    exact linksOf_lt _ _ _ hx

theorem Extends_refl (reg : ZoneRegistry) : reg.Extends reg :=
  ⟨Nat.le_refl _, fun _ _ _ _ h => h, fun _ _ => rfl, fun h => h⟩

theorem Extends_trans (a b c : ZoneRegistry) (hab : a.Extends b) (hbc : b.Extends c) :
    a.Extends c := by
  obtain ⟨l1, k1, o1, n1⟩ := hab
  obtain ⟨l2, k2, o2, n2⟩ := hbc
  refine ⟨Nat.le_trans l1 l2, ?_, ?_, fun h => n2 (n1 h)⟩
  · intro q k h hq hk
    exact k2 q k h (fun p hp => Nat.lt_of_lt_of_le (hq p hp) l1) (k1 q k h hq hk)
  · intro hlen q
    rw [o2 (by omega) q, o1 (by omega) q]

theorem resolve_extends (reg : ZoneRegistry) (f key : Nat) (name : String)
    (parentNode : Option Nat) (hpar : ∀ p, parentNode = some p → p < reg.nodes.length) :
    reg.Extends (reg.resolve f key name parentNode).2 :=
  resolve_effect reg f key name parentNode hpar

theorem setPending_extends (reg : ZoneRegistry) (h : Nat) (ids : Nat × Nat) :
    reg.Extends (reg.setPending h ids) := by
  refine ⟨Nat.le_of_eq (setPending_children reg h ids none).2.2.symm, ?_, ?_, ?_⟩
  · intro q k h1 _ hk
    rw [(setPending_children reg h ids q).1]; exact hk
  · intro _ q
    exact (setPending_children reg h ids q).2.1
  · intro hnd q
    rw [(setPending_children reg h ids q).1, (setPending_children reg h ids q).2.1]
    exact hnd q

/-- The registry and the result of `enterZone`: unchanged with an error, or the
registry of `resolve` with an error, or the registry of `resolve` with the
query ids recorded and the resolved node as result. -/
theorem enterZone_shape (σ : FrameSession) (key : Nat) (name : String) :
    ((σ.enterZone key name).1.registry = σ.registry ∧
      ∃ e, (σ.enterZone key name).2 = Except.error e) ∨
    ((σ.enterZone key name).1.registry =
        (σ.registry.resolve σ.frameId key name σ.stack.head?).2 ∧
      ∃ e, (σ.enterZone key name).2 = Except.error e) ∨
    (∃ ids, (σ.enterZone key name).1.registry =
        ((σ.registry.resolve σ.frameId key name σ.stack.head?).2).setPending
          (σ.registry.resolve σ.frameId key name σ.stack.head?).1 ids ∧
      (σ.enterZone key name).2 =
        Except.ok (σ.registry.resolve σ.frameId key name σ.stack.head?).1) := by
  unfold FrameSession.enterZone
  split
  · exact Or.inl ⟨rfl, _, rfl⟩
  · split
    · exact Or.inr (Or.inl ⟨rfl, _, rfl⟩)
    · rename_i ids ring1 _
      exact Or.inr (Or.inr ⟨ids, rfl, rfl⟩)

theorem enterZone_extends (σ : FrameSession) (key : Nat) (name : String)
    (hc : σ.registry.chainOK σ.stack) :
    σ.registry.Extends (σ.enterZone key name).1.registry := by
  have hres := resolve_extends σ.registry σ.frameId key name σ.stack.head?
    (stack_head_valid _ _ hc)
  rcases enterZone_shape σ key name with ⟨h1, _⟩ | ⟨h1, _⟩ | ⟨ids, h1, _⟩
  · rw [h1]; exact Extends_refl _
  · rw [h1]; exact hres
  · rw [h1]; exact Extends_trans _ _ _ hres (setPending_extends _ _ _)

theorem step_extends (σ : FrameSession) (op : FrameOp)
    (hc : σ.registry.chainOK σ.stack) : σ.registry.Extends (σ.step op).registry := by
  cases op with
  | beginFrame label =>
    have h : (σ.beginFrame label).1.registry = σ.registry := by
      unfold FrameSession.beginFrame; split <;> rfl
    show σ.registry.Extends (σ.beginFrame label).1.registry
    rw [h]; exact Extends_refl _
  | enterZone key name => exact enterZone_extends σ key name hc
  | exitZone =>
    have h : σ.exitZone.1.registry = σ.registry := by
      unfold FrameSession.exitZone; split <;> rfl
    show σ.registry.Extends σ.exitZone.1.registry
    rw [h]; exact Extends_refl _
  | endFrame =>
    have h : σ.endFrame.1.registry = σ.registry := by
      unfold FrameSession.endFrame; split <;> rfl
    show σ.registry.Extends σ.endFrame.1.registry
    rw [h]; exact Extends_refl _

theorem run_extends (ops : List FrameOp) (σ : FrameSession)
    (hinv : σ.registry.Inv) (hc : σ.registry.chainOK σ.stack) :
    σ.registry.Extends (σ.run ops).registry := by
  induction ops generalizing σ with
  | nil => exact Extends_refl _
  | cons op rest ih =>
    exact Extends_trans _ _ _ (step_extends σ op hc)
      (ih (σ.step op) (step_inv σ op hinv hc).1 (step_inv σ op hinv hc).2)

/-- C12: let a zone `(callSiteKey, name)` be entered in a first frame of any
reachable session, under the parent then on top of the stack (or as a root),
and let `h` be the node returned. After the rest of that frame and any further
frames, with any other zones entered and left (the parent entered again,
siblings, nested zones), whenever the same parent is on top of the stack again:
resolving the identity returns the same node `h`, and so does `enterZone` unless
it reports an error; the re-entry adds no node and leaves the parent's ordered
child list as it is; when no node was created since the end of the first frame
that list has the length it had then; and no identity is registered twice
under any parent. -/
theorem C12_reentry_same_node_across_frames (capacity : Nat) (ops0 : List FrameOp)
    (σ : FrameSession) (hσ : σ = (FrameSession.init capacity).run ops0)
    (key : Nat) (name : String) (h : Nat)
    (hok : (σ.enterZone key name).2 = Except.ok h)
    (opsA opsB : List FrameOp) (σa σb : FrameSession)
    (ha : σa = (σ.enterZone key name).1.run opsA) (hb : σb = σa.run opsB)
    (hsame : σb.stack.head? = σ.stack.head?) :
    (σb.registry.resolve σb.frameId key name σb.stack.head?).1 = h ∧
    ((σb.enterZone key name).2 = Except.ok h ∨
      ∃ e, (σb.enterZone key name).2 = Except.error e) ∧
    (σb.enterZone key name).1.registry.nodes.length = σb.registry.nodes.length ∧
    (σb.enterZone key name).1.registry.childrenOrderedOf σ.stack.head? =
      σb.registry.childrenOrderedOf σ.stack.head? ∧
    (σb.registry.nodes.length = σa.registry.nodes.length →
      ((σb.enterZone key name).1.registry.childrenOrderedOf σ.stack.head?).length =
        (σa.registry.childrenOrderedOf σ.stack.head?).length) ∧
    ((σb.enterZone key name).1.registry.childrenByKeyOf σ.stack.head?).lookup (key, name) =
      some h ∧
    (σb.enterZone key name).1.registry.NoDuplicates := by
  -- the session before the first entry
  have h0 := run_inv ops0 (FrameSession.init capacity) Inv_empty True.intro
  have e0 := run_extends ops0 (FrameSession.init capacity) Inv_empty True.intro
  rw [← hσ] at h0 e0
  have hnd0 : σ.registry.NoDuplicates := e0.2.2.2 NoDuplicates_empty
  have hpar := stack_head_valid _ _ h0.2
  -- the first entry registers the identity under the parent
  have h1 := enterZone_inv σ key name h0.1 h0.2
  have e1 := enterZone_extends σ key name h0.2
  have hreg1 : ((σ.enterZone key name).1.registry.childrenByKeyOf σ.stack.head?).lookup
      (key, name) = some h := by
    have hr := resolve_registers σ.registry σ.frameId key name σ.stack.head? hpar
    rcases enterZone_shape σ key name with ⟨_, e, he⟩ | ⟨_, e, he⟩ | ⟨ids, hreg, hres⟩
    · rw [he] at hok; exact absurd hok (by simp)
    · rw [he] at hok; exact absurd hok (by simp)
    · rw [hres] at hok
      have hh : (σ.registry.resolve σ.frameId key name σ.stack.head?).1 = h := by
        simpa using hok
      rw [hreg, (setPending_children _ _ _ _).1, hr, hh]
  have hpar1 : ∀ p, σ.stack.head? = some p →
      p < (σ.enterZone key name).1.registry.nodes.length :=
    fun p hp => Nat.lt_of_lt_of_le (hpar p hp) e1.1
  -- the rest of the first frame and the later frames
  have h2 := run_inv opsA _ h1.1 h1.2.1
  have e2 := run_extends opsA _ h1.1 h1.2.1
  rw [← ha] at h2 e2
  have h3 := run_inv opsB _ h2.1 h2.2
  have e3 := run_extends opsB _ h2.1 h2.2
  rw [← hb] at h3 e3
  have e13 := Extends_trans _ _ _ e2 e3
  have hregb : (σb.registry.childrenByKeyOf σ.stack.head?).lookup (key, name) = some h :=
    e13.2.1 _ _ _ hpar1 hreg1
  have hndb : σb.registry.NoDuplicates := e3.2.2.2 (e2.2.2.2 (e1.2.2.2 hnd0))
  -- the re-entry
  have hfound := resolve_found_children σb.registry σb.frameId key name σ.stack.head? h hregb
  have hagain := resolve_again σb.registry σb.frameId key name σ.stack.head? h hregb
  rw [hsame]
  have hafter : (σb.enterZone key name).1.registry.nodes.length = σb.registry.nodes.length ∧
      (∀ q, (σb.enterZone key name).1.registry.childrenOrderedOf q =
        σb.registry.childrenOrderedOf q) ∧
      (∀ q, (σb.enterZone key name).1.registry.childrenByKeyOf q =
        σb.registry.childrenByKeyOf q) := by
    rcases enterZone_shape σb key name with ⟨hreg, _⟩ | ⟨hreg, _⟩ | ⟨ids, hreg, _⟩
    · rw [hreg]; exact ⟨rfl, fun _ => rfl, fun _ => rfl⟩
    · rw [hreg, hsame]
      exact ⟨(hfound none).2.2, fun q => (hfound q).2.1, fun q => (hfound q).1⟩
    · rw [hreg, hsame]
      refine ⟨?_, ?_, ?_⟩
      · rw [(setPending_children _ _ _ none).2.2]; exact (hfound none).2.2
      · intro q
        rw [(setPending_children _ _ _ q).2.1]; exact (hfound q).2.1
      · intro q
        rw [(setPending_children _ _ _ q).1]; exact (hfound q).1
  refine ⟨hagain.1, ?_, hafter.1, hafter.2.1 _, ?_, ?_, ?_⟩
  · rcases enterZone_shape σb key name with ⟨_, e, he⟩ | ⟨_, e, he⟩ | ⟨ids, _, hres⟩
    · exact Or.inr ⟨e, he⟩
    · exact Or.inr ⟨e, he⟩
    · left
      rw [hres, hsame, hagain.1]
  · intro hlen
    rw [hafter.2.1, e3.2.2.1 hlen]
  · rw [hafter.2.2]; exact hregb
  · intro q
    rw [hafter.2.1 q, hafter.2.2 q]
    exact hndb q

/-- Witness of C12: "blur" is entered under "pass" in a first frame, which goes
on with the sibling "bloom"; a second frame enters the three zones again and
a third frame has entered "pass" when "blur" is entered once more. -/
theorem C12_reentry_same_node_across_frames_witness :
    (FrameSession.passOpen =
        (FrameSession.init 1024).run [FrameOp.beginFrame "F1", FrameOp.enterZone 1 "pass"] ∧
      (FrameSession.passOpen.enterZone 2 "blur").2 = Except.ok 1 ∧
      (((FrameSession.passOpen.enterZone 2 "blur").1.run FrameOp.restOfFirstFrame).run
        FrameOp.laterFrames).stack.head? = FrameSession.passOpen.stack.head? ∧
      (((FrameSession.passOpen.enterZone 2 "blur").1.run FrameOp.restOfFirstFrame).run
        FrameOp.laterFrames).registry.nodes.length =
        ((FrameSession.passOpen.enterZone 2 "blur").1.run
          FrameOp.restOfFirstFrame).registry.nodes.length) ∧
    ((((FrameSession.passOpen.enterZone 2 "blur").1.run FrameOp.restOfFirstFrame).run
        FrameOp.laterFrames).enterZone 2 "blur").2 = Except.ok 1 ∧
    (((((FrameSession.passOpen.enterZone 2 "blur").1.run FrameOp.restOfFirstFrame).run
        FrameOp.laterFrames).enterZone 2 "blur").1.registry.childrenOrderedOf
          FrameSession.passOpen.stack.head?).length =
      (((FrameSession.passOpen.enterZone 2 "blur").1.run
        FrameOp.restOfFirstFrame).registry.childrenOrderedOf
          FrameSession.passOpen.stack.head?).length ∧
    (((((FrameSession.passOpen.enterZone 2 "blur").1.run FrameOp.restOfFirstFrame).run
        FrameOp.laterFrames).enterZone 2 "blur").1.registry.childrenOrderedOf
          FrameSession.passOpen.stack.head?) = [1, 2] :=
  ⟨⟨rfl, rfl, rfl, rfl⟩, rfl,
    (C12_reentry_same_node_across_frames 1024
      [FrameOp.beginFrame "F1", FrameOp.enterZone 1 "pass"] FrameSession.passOpen rfl
      2 "blur" 1 rfl FrameOp.restOfFirstFrame FrameOp.laterFrames _ _ rfl rfl rfl).2.2.2.2.1 rfl,
    rfl⟩

end GaiApi

